import Mathlib

/-
Verification development for the notion-assistant incremental indexer.

The embedding covers:
  * src/services/notion_reader.py  — block normalization, child-page
    extraction, and the HTTP fetch paths (modelled over an abstract
    RemoteSource giving each endpoint's status code and payload);
  * src/services/notion_indexer.py — the recursive traversal
    (process_page / run), the hash store, the processed-pages set and the
    knowledge graph, instrumented with an explicit event trace recording
    vector-store writes, hash updates, file saves and node visits.

External libraries (hashlib.md5, langchain's CharacterTextSplitter, the
Chroma vector store) are modelled as parameters of `Config`: the indexer
only depends on md5 being a deterministic function of the text, on the
splitter being a deterministic function of the text, and on the store's
per-call success or failure, which the oracles `deleteFails` / `chunkFails`
decide.  Recursion in `process_page` is modelled with explicit fuel; the
Python recursion corresponds to unbounded fuel, and a `none` result for
every fuel value models non-termination.
-/

set_option maxHeartbeats 1000000
set_option maxRecDepth 4000

namespace NotionAssistant

/-! ## Data model (src/services/notion_reader.py) -/

/-- A parsed property value, the shapes produced by the property loop in
`NotionReader.get_page_content` (lines 62-83): lists of plain texts for
title / rich_text / multi_select / people / relation, plain strings for
url, optional strings for select / date, booleans for checkbox, optional
numbers for number.  Numbers are modelled as integers. -/
inductive PropVal where
  | vStrs (l : List String)
  | vStr (s : String)
  | vOptStr (s : Option String)
  | vBool (b : Bool)
  | vOptNum (n : Option Int)
  deriving DecidableEq, Repr

/-- `NotionChildPage` from notion_reader.py. -/
structure NotionChildPage where
  title : String
  page_id : String
  deriving DecidableEq, Repr

/-- `NotionPage` from notion_reader.py; `content` is the parsed property
dictionary (association list), `full_content` the flattened text,
`child_pages` the declared child references. -/
structure NotionPage where
  page_id : String
  content : List (String × PropVal)
  full_content : String
  child_pages : List NotionChildPage
  deriving DecidableEq, Repr

/-- One raw property object as returned by the remote source, by its typed
branch in the extraction loop of `get_page_content`.  `other` stands for a
property type none of the elif branches matches: the loop then stores
nothing for that key. -/
inductive RawProp where
  | title (texts : List String)
  | rich_text (texts : List String)
  | url (u : String)
  | select (name : Option String)
  | multi_select (names : List String)
  | date (start : Option String)
  | people (names : List String)
  | relation (ids : List String)
  | checkbox (b : Bool)
  | number (n : Option Int)
  | other
  deriving DecidableEq, Repr

/-- One typed content block, by its branch in `NotionReader.process_blocks`.
A `child_page` block carries the title, the containing page's id (the
`parent.page_id` field of the raw block) and the block's own id (`id`). -/
inductive Block where
  | paragraph (rich_text : List String)
  | heading_1 (rich_text : List String)
  | heading_2 (rich_text : List String)
  | heading_3 (rich_text : List String)
  | bulleted_list_item (rich_text : List String)
  | numbered_list_item (rich_text : List String)
  | child_page (title : String) (parent_page_id : String) (block_id : String)
  | other (rendered : String)
  deriving DecidableEq, Repr

/-! ## Reader functions (src/services/notion_reader.py) -/

/-- The per-key body of the property extraction loop (lines 62-83). -/
def extractProp : RawProp → Option PropVal
  | .title texts => some (.vStrs texts)
  | .rich_text texts => some (.vStrs texts)
  | .url u => some (.vStr u)
  | .select name => some (.vOptStr name)
  | .multi_select names => some (.vStrs names)
  | .date start => some (.vOptStr start)
  | .people names => some (.vStrs names)
  | .relation ids => some (.vStrs ids)
  | .checkbox b => some (.vBool b)
  | .number n => some (.vOptNum n)
  | .other => none

/-- The property extraction loop over all properties of a page. -/
def extractProps (props : List (String × RawProp)) : List (String × PropVal) :=
  props.filterMap fun kv => (extractProp kv.2).map fun v => (kv.1, v)

/-- The rendering of one block in `process_blocks` (lines 127-147).  Note
the `child_page` branch renders the link target from the block's
`parent.page_id` field (line 143), not from the block's own id. -/
def blockLine : Block → String
  | .paragraph ts => String.intercalate " " ts
  | .heading_1 ts => "# " ++ ts.headD ""
  | .heading_2 ts => "## " ++ ts.headD ""
  | .heading_3 ts => "### " ++ ts.headD ""
  | .bulleted_list_item ts => "- " ++ String.intercalate " " ts
  | .numbered_list_item ts => "1. " ++ String.intercalate " " ts
  | .child_page title parent_page_id _ => "- [" ++ title ++ "](" ++ parent_page_id ++ ")"
  | .other s => s

/-- `NotionReader.process_blocks`: flatten the blocks to newline-joined
lines. -/
def process_blocks (blocks : List Block) : String :=
  String.intercalate "\n" (blocks.map blockLine)

/-- `NotionReader.get_child_pages` (lines 151-163): a child reference per
`child_page` block, carrying the block's own id (line 160). -/
def get_child_pages (blocks : List Block) : List NotionChildPage :=
  blocks.filterMap fun b =>
    match b with
    | .child_page t _ bid => some { title := t, page_id := bid }
    | _ => none

/-- The remote source, one status code and payload per endpoint per id:
`GET /pages/id` (properties) and `GET /blocks/id/children` (blocks). -/
structure RemoteSource where
  pageStatus : String → Nat
  pageProps : String → List (String × RawProp)
  blocksStatus : String → Nat
  blocksResults : String → List Block

/-- The error raised by `get_page_content` on a non-200 properties
response: the exception message carries the status code (line 101); the
response body is printed for diagnostics but not attached. -/
structure FetchError where
  status : Nat
  message : String
  deriving DecidableEq, Repr

/-- `NotionReader.get_page_blocks` (lines 103-119): on a 200 response the
result list, on any other status the error is printed and the function
returns the empty list. -/
def get_page_blocks (src : RemoteSource) (page_id : String) : List Block :=
  if src.blocksStatus page_id = 200 then src.blocksResults page_id else []

/-- `NotionReader.get_page_content` (lines 52-101): on a 200 properties
response, build the `NotionPage` from the extracted properties and the
(block-fetch) results; on any other status raise an exception carrying the
status code. -/
def get_page_content (src : RemoteSource) (page_id : String) :
    Except FetchError NotionPage :=
  if src.pageStatus page_id = 200 then
    let content := extractProps (src.pageProps page_id)
    let blocks := get_page_blocks src page_id
    let full_content := process_blocks blocks
    let child_pages := get_child_pages blocks
    .ok { page_id := page_id, content := content,
          full_content := full_content, child_pages := child_pages }
  else
    .error { status := src.pageStatus page_id,
             message := "Failed to retrieve page content. Status code: "
               ++ toString (src.pageStatus page_id) }

/-! ## Indexer data model (src/services/notion_indexer.py) -/

/-- The change-detector outcome of spec section 4.2, computed from the
stored fingerprint (if any) and the fresh one. -/
inductive Decision where
  | unseen
  | modified
  | unchanged
  deriving DecidableEq, Repr

/-- `decide(id, fullText)` of spec section 4.2 against a stored
fingerprint. -/
def decideOf (stored : Option String) (fresh : String) : Decision :=
  match stored with
  | none => Decision.unseen
  | some v => if v = fresh then Decision.unchanged else Decision.modified

/-- Observable events of one indexer run, in program order: a node visit
(with its parent), the change decision for the visited id, vector-store
writes (the delete-by-metadata and the per-chunk additions, each with its
success flag), the hash-store update, and the three file saves. -/
inductive Ev where
  | visit (id : String) (parent : Option String)
  | decided (id : String) (d : Decision)
  | vsDelete (id : String) (ok : Bool)
  | vsAdd (id : String) (title : String) (chunk : String) (ok : Bool)
  | hashUpdate (id : String) (fp : String)
  | saveHash
  | saveProcessed
  | saveGraph
  deriving DecidableEq, Repr

/-- The indexer's environment: the root id, the fetch interface (the
successful result of `NotionReader.get_page_content`), and the external
collaborators as deterministic functions / failure oracles. -/
structure Config where
  root_page_id : String
  fetch : String → NotionPage
  md5 : String → String
  splitText : String → List String
  deleteFails : String → Bool
  chunkFails : String → String → Bool

/-- The mutable fields of `NotionIndexer`: the hash store (id →
fingerprint), the processed-pages set, the knowledge graph (node labels
and directed edges), and the two progress counters. -/
structure IndexerState where
  hash_store : List (String × String)
  processed_pages : List String
  graph_nodes : List (String × String)
  graph_edges : List (String × String)
  total_pages_found : Nat
  pages_processed : Nat
  deriving DecidableEq, Repr

/-- The state of a fresh indexer with no persisted files (empty defaults). -/
def initState : IndexerState :=
  { hash_store := [], processed_pages := [], graph_nodes := [],
    graph_edges := [], total_pages_found := 0, pages_processed := 0 }

/-- Dictionary update `m[k] = v`: replace the first binding of `k`,
appending a new binding when `k` is absent. -/
def setKV : List (String × α) → String → α → List (String × α)
  | [], k, v => [(k, v)]
  | (k', v') :: rest, k, v =>
    if k' = k then (k, v) :: rest else (k', v') :: setKV rest k v

/-- Set insertion `s.add(x)`. -/
def insertS (s : List String) (x : String) : List String :=
  if x ∈ s then s else s ++ [x]

/-- `knowledge_graph.add_edge(parent, child)`: a no-op when the edge is
already present. -/
def addEdge (es : List (String × String)) (p c : String) :
    List (String × String) :=
  if (p, c) ∈ es then es else es ++ [(p, c)]

/-- Title extraction for logging and metadata (notion_indexer.py lines
91-92): `content.get('title', ['Untitled'])`, then the first element when
the list is non-empty.  The `title` key, when present, is always a parsed
title property (a list of plain texts). -/
def titleOf (content : List (String × PropVal)) : String :=
  match List.lookup "title" content with
  | some (.vStrs l) => l.headD "Untitled"
  | some _ => "Untitled"
  | none => "Untitled"

/-- The fresh fingerprint of a page's flattened content
(`hashlib.md5(content.encode()).hexdigest()` with `md5` abstract). -/
def freshHash (cfg : Config) (id : String) : String :=
  cfg.md5 (cfg.fetch id).full_content

/-- The title the indexer computes for a page. -/
def freshTitle (cfg : Config) (id : String) : String :=
  titleOf (cfg.fetch id).content

/-! ## The traversal (notion_indexer.py lines 81-163) -/

/-- The indexing branch of `process_page` (lines 104-135): split into
chunks; when there are none, warn and do nothing; otherwise delete the
page's prior vectors (failure tolerated), submit every chunk (per-chunk
failure tolerated), then update and save the hash store and the
processed-pages set. -/
def indexBranch (cfg : Config) (page_id title content current_hash : String)
    (st : IndexerState) : IndexerState × List Ev :=
  let chunks := cfg.splitText content
  if chunks.isEmpty then (st, [])
  else
    let delEv := Ev.vsDelete page_id (!cfg.deleteFails page_id)
    let addEvs := chunks.map fun c =>
      Ev.vsAdd page_id title c (!cfg.chunkFails page_id c)
    let st1 := { st with hash_store := setKV st.hash_store page_id current_hash }
    let st2 := { st1 with processed_pages := insertS st1.processed_pages page_id }
    (st2, delEv :: (addEvs ++
      [Ev.hashUpdate page_id current_hash, Ev.saveHash, Ev.saveProcessed]))

/-- The non-recursive part of `NotionIndexer.process_page` (lines 85-143):
fetch, fingerprint, count children, decide the branch on
`is_already_processed` / `is_new_page or is_page_modified`, then always
bump the processed counter, upsert the graph node and add the parent edge
when a parent exists. -/
def nodeBody (cfg : Config) (page_id : String) (parent_id : Option String)
    (st : IndexerState) : IndexerState × List Ev :=
  let page := cfg.fetch page_id
  let content := page.full_content
  let current_hash := cfg.md5 content
  let st0 := { st with total_pages_found :=
    st.total_pages_found + page.child_pages.length }
  let title := titleOf page.content
  let is_new_page : Bool := (List.lookup page_id st0.hash_store).isNone
  let is_page_modified : Bool :=
    decide (List.lookup page_id st0.hash_store ≠ some current_hash)
  let is_already_processed : Bool := decide (page_id ∈ st0.processed_pages)
  let r :=
    if is_already_processed then (st0, ([] : List Ev))
    else if is_new_page || is_page_modified then
      indexBranch cfg page_id title content current_hash st0
    else (st0, [])
  let st1 := { r.1 with pages_processed := r.1.pages_processed + 1 }
  let st2 := { st1 with graph_nodes := setKV st1.graph_nodes page_id title }
  let st3 :=
    match parent_id with
    | some p => { st2 with graph_edges := addEdge st2.graph_edges p page_id }
    | none => st2
  (st3, Ev.visit page_id parent_id ::
    Ev.decided page_id (decideOf (List.lookup page_id st0.hash_store) current_hash)
    :: r.2)

/-- The child loop of `process_page` (lines 146-150): visit each declared
child in order with this node as parent, threading the state and
concatenating the traces. -/
def runChildren
    (f : String → Option String → IndexerState → Option (IndexerState × List Ev))
    (pid : String) :
    List NotionChildPage → IndexerState → Option (IndexerState × List Ev)
  | [], st => some (st, [])
  | c :: cs, st =>
    match f c.page_id (some pid) st with
    | none => none
    | some r =>
      match runChildren f pid cs r.1 with
      | none => none
      | some s => some (s.1, r.2 ++ s.2)

/-- `NotionIndexer.process_page` with explicit recursion fuel: the Python
recursion is the limit of unbounded fuel, and `none` for every fuel models
a traversal that never returns. -/
def process_page (cfg : Config) :
    Nat → String → Option String → IndexerState → Option (IndexerState × List Ev)
  | 0, _, _, _ => none
  | Nat.succ fuel, page_id, parent_id, st =>
    let r := nodeBody cfg page_id parent_id st
    match runChildren (process_page cfg fuel) page_id
        (cfg.fetch page_id).child_pages r.1 with
    | none => none
    | some s => some (s.1, r.2 ++ s.2)

/-- `NotionIndexer.run` (lines 152-163): load the processed set (already
part of the state), reset the counters, traverse from the root with no
parent, then save the knowledge graph. -/
def run (cfg : Config) (fuel : Nat) (st : IndexerState) :
    Option (IndexerState × List Ev) :=
  match process_page cfg fuel cfg.root_page_id none
      { st with total_pages_found := 1, pages_processed := 0 } with
  | none => none
  | some r => some (r.1, r.2 ++ [Ev.saveGraph])

/-! ## Derived views of the traversal, used to state the properties -/

/-- The counter update of notion_indexer.py line 88. -/
def countStep (cfg : Config) (id : String) (st : IndexerState) : IndexerState :=
  { st with total_pages_found :=
      st.total_pages_found + (cfg.fetch id).child_pages.length }

/-- The state effect of the indexing branch when chunks are non-empty:
record the fresh fingerprint and mark the id processed. -/
def indexStore (cfg : Config) (id : String) (st : IndexerState) : IndexerState :=
  { st with hash_store := setKV st.hash_store id (freshHash cfg id),
            processed_pages := insertS st.processed_pages id }

/-- The unconditional tail of a visit (lines 139-143): bump the processed
counter, upsert the graph node, add the parent edge when there is one. -/
def graphStep (cfg : Config) (id : String) (p : Option String)
    (st : IndexerState) : IndexerState :=
  let st1 := { st with pages_processed := st.pages_processed + 1,
                       graph_nodes := setKV st.graph_nodes id (freshTitle cfg id) }
  match p with
  | some q => { st1 with graph_edges := addEdge st1.graph_edges q id }
  | none => st1

/-- Whether a visit of `id` from state `st` takes the write path: not in
the processed set, the stored fingerprint differs from the fresh one, and
splitting yields at least one chunk. -/
def willIndex (cfg : Config) (st : IndexerState) (id : String) : Prop :=
  id ∉ st.processed_pages ∧
  List.lookup id st.hash_store ≠ some (freshHash cfg id) ∧
  cfg.splitText (cfg.fetch id).full_content ≠ []

instance (cfg : Config) (st : IndexerState) (id : String) :
    Decidable (willIndex cfg st id) := by
  unfold willIndex; infer_instance

/-- A visit of `id` from state `st` that issues no store write: already
processed, or unchanged, or empty content. -/
def quietVisit (cfg : Config) (st : IndexerState) (id : String) : Prop :=
  id ∈ st.processed_pages ∨
  List.lookup id st.hash_store = some (freshHash cfg id) ∨
  cfg.splitText (cfg.fetch id).full_content = []

instance (cfg : Config) (st : IndexerState) (id : String) :
    Decidable (quietVisit cfg st id) := by
  unfold quietVisit; infer_instance

/-- Whether an event is a write against the embedding store. -/
def isWrite : Ev → Bool
  | .vsDelete _ _ => true
  | .vsAdd _ _ _ _ => true
  | _ => false

/-- No embedding-store write occurs in the trace. -/
def noWritesB (evs : List Ev) : Bool :=
  evs.all fun e => !isWrite e

/-- The visits of a trace, in order, with their parents. -/
def visitsOf (evs : List Ev) : List (String × Option String) :=
  evs.filterMap fun e =>
    match e with
    | .visit k q => some (k, q)
    | _ => none

/-- How many times a given id is visited in a trace. -/
def visitCount (evs : List Ev) (k : String) : Nat :=
  (visitsOf evs).countP fun pr => pr.1 = k

/-- Every stored fingerprint is the fresh fingerprint of its id (true of
the empty store, preserved because the indexer only ever writes fresh
fingerprints). -/
def GoodHash (cfg : Config) (st : IndexerState) : Prop :=
  ∀ k v, List.lookup k st.hash_store = some v → v = freshHash cfg k

/-- Every graph node label is the fresh title of its id, and node keys are
unique. -/
def GoodNodes (cfg : Config) (st : IndexerState) : Prop :=
  (∀ k t, List.lookup k st.graph_nodes = some t → t = freshTitle cfg k) ∧
  (st.graph_nodes.map Prod.fst).Nodup

/-- The standing state invariant of a run started from empty stores. -/
def GoodState (cfg : Config) (st : IndexerState) : Prop :=
  GoodHash cfg st ∧ GoodNodes cfg st ∧ st.graph_edges.Nodup

/-- Store growth between two states: processed ids, hash keys, graph node
keys and edges are only ever added. -/
def Mono (st st' : IndexerState) : Prop :=
  (∀ k, k ∈ st.processed_pages → k ∈ st'.processed_pages) ∧
  (∀ k, (List.lookup k st.hash_store).isSome →
    (List.lookup k st'.hash_store).isSome) ∧
  (∀ k, (List.lookup k st.graph_nodes).isSome →
    (List.lookup k st'.graph_nodes).isSome) ∧
  (∀ e, e ∈ st.graph_edges → e ∈ st'.graph_edges)

/-- What a completed visit leaves behind for a visited pair `(id, parent)`:
the next visit of `id` is quiet, the graph has the node, and the parent
edge when there was a parent. -/
def StableAt (cfg : Config) (st : IndexerState)
    (pr : String × Option String) : Prop :=
  quietVisit cfg st pr.1 ∧
  List.lookup pr.1 st.graph_nodes = some (freshTitle cfg pr.1) ∧
  ∀ q, pr.2 = some q → (q, pr.1) ∈ st.graph_edges

/-- All visited pairs of a trace are stable in a state. -/
def VisitedOK (cfg : Config) (st : IndexerState) (evs : List Ev) : Prop :=
  ∀ pr ∈ visitsOf evs, StableAt cfg st pr

/-- Equality of the three persisted stores (and the processed set) between
two states, counters aside. -/
def storesEq (st st' : IndexerState) : Prop :=
  st'.hash_store = st.hash_store ∧
  st'.processed_pages = st.processed_pages ∧
  st'.graph_nodes = st.graph_nodes ∧
  st'.graph_edges = st.graph_edges

/-- Per-run soundness of the trace and the hash store: keys whose content
splits to no chunks are never touched, and every store-write event carries
the data the code computes for its id. -/
def TraceOK (cfg : Config) (st st' : IndexerState) (evs : List Ev) : Prop :=
  (∀ k, List.lookup k st'.hash_store = List.lookup k st.hash_store ∨
    List.lookup k st'.hash_store = some (freshHash cfg k)) ∧
  (∀ k, cfg.splitText (cfg.fetch k).full_content = [] →
    List.lookup k st'.hash_store = List.lookup k st.hash_store) ∧
  (∀ k b, Ev.vsDelete k b ∈ evs →
    cfg.splitText (cfg.fetch k).full_content ≠ [] ∧ b = !cfg.deleteFails k) ∧
  (∀ k t c b, Ev.vsAdd k t c b ∈ evs →
    cfg.splitText (cfg.fetch k).full_content ≠ [] ∧ t = freshTitle cfg k ∧
    c ∈ cfg.splitText (cfg.fetch k).full_content ∧ b = !cfg.chunkFails k c) ∧
  (∀ k fp, Ev.hashUpdate k fp ∈ evs →
    cfg.splitText (cfg.fetch k).full_content ≠ [] ∧ fp = freshHash cfg k)

/-! ## Concrete corpora for witnesses and counterexamples -/

/-- A page literal with a single title property. -/
def pageOf (id title text : String) (kids : List NotionChildPage) : NotionPage :=
  { page_id := id, content := [("title", PropVal.vStrs [title])],
    full_content := text, child_pages := kids }

/-- A two-page corpus: root `r` with one child `a`. -/
def wFetch : String → NotionPage := fun id =>
  if id = "r" then pageOf "r" "Root" "hello world" [⟨"A", "a"⟩]
  else if id = "a" then pageOf "a" "A" "alpha" []
  else pageOf id "X" "x" []

/-- A table-driven splitter: empty text gives no chunks, the root text
gives two chunks, anything else one chunk. -/
def wSplit : String → List String := fun s =>
  if s = "" then []
  else if s = "hello world" then ["hello", "world"]
  else [s]

/-- The standard witness configuration: identity fingerprints, no store
failures. -/
def wCfg : Config :=
  { root_page_id := "r", fetch := wFetch, md5 := fun s => s,
    splitText := wSplit, deleteFails := fun _ => false,
    chunkFails := fun _ _ => false }

/-- As `wCfg` but the root page has empty content (and still one child). -/
def wCfgEmptyRoot : Config :=
  { wCfg with fetch := fun id =>
      if id = "r" then pageOf "r" "Root" "" [⟨"A", "a"⟩] else wFetch id }

/-- As `wCfg` but the chunk "hello" fails to embed. -/
def wCfgChunkFail : Config :=
  { wCfg with chunkFails := fun _ c => c = "hello" }

/-- As `wCfg` but every delete-by-metadata fails. -/
def wCfgDelFail : Config :=
  { wCfg with deleteFails := fun _ => true }

/-- A corpus whose root declares the same child id twice. -/
def dupCfg : Config :=
  { root_page_id := "r",
    fetch := fun id =>
      if id = "r" then pageOf "r" "Root" "root text" [⟨"T", "x"⟩, ⟨"T", "x"⟩]
      else pageOf id "T" "leaf text" [],
    md5 := fun s => s, splitText := wSplit,
    deleteFails := fun _ => false, chunkFails := fun _ _ => false }

/-- A corpus whose root declares itself as a child (a reference cycle). -/
def cycCfg : Config :=
  { root_page_id := "r",
    fetch := fun _ => pageOf "r" "Root" "cyc" [⟨"Root", "r"⟩],
    md5 := fun s => s, splitText := wSplit,
    deleteFails := fun _ => false, chunkFails := fun _ _ => false }

/-- A corpus whose root has no content at all. -/
def emptyCfg : Config :=
  { root_page_id := "r",
    fetch := fun _ => pageOf "r" "Root" "" [],
    md5 := fun s => s, splitText := wSplit,
    deleteFails := fun _ => false, chunkFails := fun _ _ => false }

/-- A single-page corpus whose stored fingerprint is stale while the page
is already in the processed set. -/
def staleCfg : Config :=
  { root_page_id := "p",
    fetch := fun _ => pageOf "p" "P" "new" [],
    md5 := fun s => s, splitText := wSplit,
    deleteFails := fun _ => false, chunkFails := fun _ _ => false }

/-- The state wherein `p` carries a stale fingerprint yet is already in
the processed set. -/
def staleState : IndexerState :=
  { hash_store := [("p", "old")], processed_pages := ["p"],
    graph_nodes := [], graph_edges := [],
    total_pages_found := 0, pages_processed := 0 }

/-- A remote source whose properties endpoint succeeds but whose blocks
endpoint fails with 404 despite a non-empty block payload. -/
def srcBlocks404 : RemoteSource :=
  { pageStatus := fun _ => 200,
    pageProps := fun _ => [("title", RawProp.title ["T"])],
    blocksStatus := fun _ => 404,
    blocksResults := fun _ => [Block.paragraph ["hello"]] }

/-- A remote source whose properties endpoint fails with 403. -/
def srcPage403 : RemoteSource :=
  { pageStatus := fun _ => 403,
    pageProps := fun _ => [],
    blocksStatus := fun _ => 200,
    blocksResults := fun _ => [] }

/-- A remote source with one child_page block, well-formed: the block's
parent field names the containing page. -/
def srcChild : RemoteSource :=
  { pageStatus := fun _ => 200,
    pageProps := fun _ => [("title", RawProp.title ["P"])],
    blocksStatus := fun _ => 200,
    blocksResults := fun id => [Block.child_page "Kid" id "b123"] }

/-! ## Concrete run results (checked by the kernel in the witnesses) -/

/-- Result state of `process_page wCfg 1 "a" none initState`. -/
def c5wSt : IndexerState :=
  { hash_store := [("a", "alpha")], processed_pages := ["a"],
    graph_nodes := [("a", "A")], graph_edges := [],
    total_pages_found := 0, pages_processed := 1 }

/-- Result trace of `process_page wCfg 1 "a" none initState`. -/
def c5wEvs : List Ev :=
  [Ev.visit "a" none, Ev.decided "a" Decision.unseen, Ev.vsDelete "a" true,
   Ev.vsAdd "a" "A" "alpha" true, Ev.hashUpdate "a" "alpha", Ev.saveHash,
   Ev.saveProcessed]

/-- Result state of `process_page wCfgEmptyRoot 2 "r" none initState`. -/
def c6wSt : IndexerState :=
  { hash_store := [("a", "alpha")], processed_pages := ["a"],
    graph_nodes := [("r", "Root"), ("a", "A")], graph_edges := [("r", "a")],
    total_pages_found := 1, pages_processed := 2 }

/-- Result trace of `process_page wCfgEmptyRoot 2 "r" none initState`. -/
def c6wEvs : List Ev :=
  [Ev.visit "r" none, Ev.decided "r" Decision.unseen,
   Ev.visit "a" (some "r"), Ev.decided "a" Decision.unseen,
   Ev.vsDelete "a" true, Ev.vsAdd "a" "A" "alpha" true,
   Ev.hashUpdate "a" "alpha", Ev.saveHash, Ev.saveProcessed]

/-- Result state of `process_page wCfgChunkFail 2 "r" none initState`. -/
def c4wSt : IndexerState :=
  { hash_store := [("r", "hello world"), ("a", "alpha")],
    processed_pages := ["r", "a"],
    graph_nodes := [("r", "Root"), ("a", "A")], graph_edges := [("r", "a")],
    total_pages_found := 1, pages_processed := 2 }

/-- Result trace of `process_page wCfgChunkFail 2 "r" none initState`. -/
def c4wEvs : List Ev :=
  [Ev.visit "r" none, Ev.decided "r" Decision.unseen, Ev.vsDelete "r" true,
   Ev.vsAdd "r" "Root" "hello" false, Ev.vsAdd "r" "Root" "world" true,
   Ev.hashUpdate "r" "hello world", Ev.saveHash, Ev.saveProcessed,
   Ev.visit "a" (some "r"), Ev.decided "a" Decision.unseen,
   Ev.vsDelete "a" true, Ev.vsAdd "a" "A" "alpha" true,
   Ev.hashUpdate "a" "alpha", Ev.saveHash, Ev.saveProcessed]

/-- Result trace of `process_page wCfgDelFail 1 "a" none initState`. -/
def c7wEvs : List Ev :=
  [Ev.visit "a" none, Ev.decided "a" Decision.unseen, Ev.vsDelete "a" false,
   Ev.vsAdd "a" "A" "alpha" true, Ev.hashUpdate "a" "alpha", Ev.saveHash,
   Ev.saveProcessed]

/-- Result state of `process_page staleCfg 1 "p" none staleState`: the
stale fingerprint survives and nothing is re-embedded. -/
def c1cSt : IndexerState :=
  { hash_store := [("p", "old")], processed_pages := ["p"],
    graph_nodes := [("p", "P")], graph_edges := [],
    total_pages_found := 0, pages_processed := 1 }

/-- Result trace of `process_page staleCfg 1 "p" none staleState`. -/
def c1cEvs : List Ev :=
  [Ev.visit "p" none, Ev.decided "p" Decision.modified]

/-- Result state of `process_page dupCfg 2 "r" none initState`. -/
def c2cSt : IndexerState :=
  { hash_store := [("r", "root text"), ("x", "leaf text")],
    processed_pages := ["r", "x"],
    graph_nodes := [("r", "Root"), ("x", "T")], graph_edges := [("r", "x")],
    total_pages_found := 2, pages_processed := 3 }

/-- Result trace of `process_page dupCfg 2 "r" none initState`: the child
`x` is visited twice. -/
def c2cEvs : List Ev :=
  [Ev.visit "r" none, Ev.decided "r" Decision.unseen, Ev.vsDelete "r" true,
   Ev.vsAdd "r" "Root" "root text" true, Ev.hashUpdate "r" "root text",
   Ev.saveHash, Ev.saveProcessed,
   Ev.visit "x" (some "r"), Ev.decided "x" Decision.unseen,
   Ev.vsDelete "x" true, Ev.vsAdd "x" "T" "leaf text" true,
   Ev.hashUpdate "x" "leaf text", Ev.saveHash, Ev.saveProcessed,
   Ev.visit "x" (some "r"), Ev.decided "x" Decision.unchanged]

/-- Result state of both the first and the second `run emptyCfg 2`. -/
def c9cSt : IndexerState :=
  { hash_store := [], processed_pages := [], graph_nodes := [("r", "Root")],
    graph_edges := [], total_pages_found := 1, pages_processed := 1 }

/-- Result trace of both `run emptyCfg 2` runs. -/
def c9cEvs : List Ev :=
  [Ev.visit "r" none, Ev.decided "r" Decision.unseen, Ev.saveGraph]

/-- Result state of `run wCfg 3 initState`. -/
def c9wSt : IndexerState :=
  { hash_store := [("r", "hello world"), ("a", "alpha")],
    processed_pages := ["r", "a"],
    graph_nodes := [("r", "Root"), ("a", "A")], graph_edges := [("r", "a")],
    total_pages_found := 2, pages_processed := 2 }

/-- Result trace of `run wCfg 3 initState`. -/
def c9wEvs : List Ev :=
  [Ev.visit "r" none, Ev.decided "r" Decision.unseen, Ev.vsDelete "r" true,
   Ev.vsAdd "r" "Root" "hello" true, Ev.vsAdd "r" "Root" "world" true,
   Ev.hashUpdate "r" "hello world", Ev.saveHash, Ev.saveProcessed,
   Ev.visit "a" (some "r"), Ev.decided "a" Decision.unseen,
   Ev.vsDelete "a" true, Ev.vsAdd "a" "A" "alpha" true,
   Ev.hashUpdate "a" "alpha", Ev.saveHash, Ev.saveProcessed, Ev.saveGraph]

/-! ## Basic lemmas about the store operations -/

theorem lookup_cons (k' k : String) (b : α) (tl : List (String × α)) :
    List.lookup k' ((k, b) :: tl) =
      if k' = k then some b else List.lookup k' tl := by
  by_cases h : k' = k
  · subst h; simp [List.lookup]
  · simp [List.lookup, beq_eq_false_iff_ne.mpr h, h]

theorem lookup_setKV_self (ns : List (String × α)) (k : String) (v : α) :
    List.lookup k (setKV ns k v) = some v := by
  induction ns with
  | nil => simp [setKV, lookup_cons]
  | cons hd tl ih =>
    obtain ⟨k', v'⟩ := hd
    by_cases h : k' = k
    · simp [setKV, h, lookup_cons]
    · simp [setKV, h, lookup_cons, ih, Ne.symm h]

theorem lookup_setKV_ne (ns : List (String × α)) {k k' : String} (v : α)
    (h : k' ≠ k) : List.lookup k' (setKV ns k v) = List.lookup k' ns := by
  induction ns with
  | nil => simp [setKV, lookup_cons, h]
  | cons hd tl ih =>
    obtain ⟨a, b⟩ := hd
    by_cases ha : a = k
    · subst ha
      simp [setKV, lookup_cons, h]
    · simp [setKV, ha, lookup_cons, ih]

theorem lookup_isSome_setKV (ns : List (String × α)) (k k' : String) (v : α)
    (h : (List.lookup k' ns).isSome) :
    (List.lookup k' (setKV ns k v)).isSome := by
  by_cases hk : k' = k
  · subst hk; simp [lookup_setKV_self]
  · rwa [lookup_setKV_ne ns v hk]

theorem keys_setKV (ns : List (String × α)) (k : String) (v : α) :
    (setKV ns k v).map Prod.fst = ns.map Prod.fst ∨
    (setKV ns k v).map Prod.fst = ns.map Prod.fst ++ [k] := by
  induction ns with
  | nil => simp [setKV]
  | cons hd tl ih =>
    obtain ⟨a, b⟩ := hd
    by_cases ha : a = k
    · subst ha; simp [setKV]
    · rcases ih with ih | ih <;> simp [setKV, ha, ih]

theorem keys_nodup_setKV (ns : List (String × α)) (k : String) (v : α)
    (h : (ns.map Prod.fst).Nodup) : ((setKV ns k v).map Prod.fst).Nodup := by
  induction ns with
  | nil => simp [setKV]
  | cons hd tl ih =>
    obtain ⟨a, b⟩ := hd
    simp only [List.map_cons, List.nodup_cons] at h
    by_cases ha : a = k
    · subst ha; simpa [setKV] using h
    · simp only [setKV, ha, if_false, List.map_cons, List.nodup_cons]
      refine ⟨?_, ih h.2⟩
      intro hmem
      rcases keys_setKV tl k v with hk | hk
      · exact h.1 (hk ▸ hmem)
      · rw [hk] at hmem
        rcases List.mem_append.1 hmem with hmem | hmem
        · exact h.1 hmem
        · simp at hmem; exact ha hmem

theorem setKV_self (ns : List (String × α)) (k : String) (v : α)
    (hnd : (ns.map Prod.fst).Nodup) (h : List.lookup k ns = some v) :
    setKV ns k v = ns := by
  induction ns with
  | nil => simp [List.lookup] at h
  | cons hd tl ih =>
    obtain ⟨a, b⟩ := hd
    simp only [List.map_cons, List.nodup_cons] at hnd
    rw [lookup_cons] at h
    by_cases ha : a = k
    · subst ha
      rw [if_pos rfl] at h
      simp only [Option.some.injEq] at h
      simp [setKV, h]
    · rw [if_neg (fun hh => ha hh.symm)] at h
      simp [setKV, ha, ih hnd.2 h]

theorem mem_insertS_self (s : List String) (x : String) : x ∈ insertS s x := by
  unfold insertS; split <;> simp_all

theorem mem_insertS_of_mem (s : List String) (x y : String) (h : y ∈ s) :
    y ∈ insertS s x := by
  unfold insertS; split <;> simp_all

theorem addEdge_mem_self (es : List (String × String)) (p c : String) :
    (p, c) ∈ addEdge es p c := by
  unfold addEdge; split <;> simp_all

theorem addEdge_mem_of_mem (es : List (String × String)) (p c : String)
    (e : String × String) (h : e ∈ es) : e ∈ addEdge es p c := by
  unfold addEdge; split <;> simp_all

theorem addEdge_of_mem (es : List (String × String)) (p c : String)
    (h : (p, c) ∈ es) : addEdge es p c = es := by
  unfold addEdge; simp [h]

theorem addEdge_nodup (es : List (String × String)) (p c : String)
    (h : es.Nodup) : (addEdge es p c).Nodup := by
  unfold addEdge
  split
  · exact h
  · next hmem =>
    simpa [List.nodup_append] using ⟨h, fun hx => hmem hx⟩

theorem addEdge_idem (es : List (String × String)) (p c : String) :
    addEdge (addEdge es p c) p c = addEdge es p c :=
  addEdge_of_mem _ p c (addEdge_mem_self es p c)

theorem setKV_idem (ns : List (String × α)) (k : String) (v : α) :
    setKV (setKV ns k v) k v = setKV ns k v := by
  induction ns with
  | nil => simp [setKV]
  | cons hd tl ih =>
    obtain ⟨a, b⟩ := hd
    by_cases ha : a = k
    · subst ha; simp [setKV]
    · simp [setKV, ha, ih]

/-! ## Projection lemmas for the step functions -/

@[simp] theorem countStep_hash (cfg : Config) (id : String) (st : IndexerState) :
    (countStep cfg id st).hash_store = st.hash_store := rfl

@[simp] theorem countStep_processed (cfg : Config) (id : String)
    (st : IndexerState) :
    (countStep cfg id st).processed_pages = st.processed_pages := rfl

@[simp] theorem countStep_nodes (cfg : Config) (id : String)
    (st : IndexerState) : (countStep cfg id st).graph_nodes = st.graph_nodes := rfl

@[simp] theorem countStep_edges (cfg : Config) (id : String)
    (st : IndexerState) : (countStep cfg id st).graph_edges = st.graph_edges := rfl

@[simp] theorem indexStore_hash (cfg : Config) (id : String)
    (st : IndexerState) :
    (indexStore cfg id st).hash_store = setKV st.hash_store id (freshHash cfg id) := rfl

@[simp] theorem indexStore_processed (cfg : Config) (id : String)
    (st : IndexerState) :
    (indexStore cfg id st).processed_pages = insertS st.processed_pages id := rfl

@[simp] theorem indexStore_nodes (cfg : Config) (id : String)
    (st : IndexerState) :
    (indexStore cfg id st).graph_nodes = st.graph_nodes := rfl

@[simp] theorem indexStore_edges (cfg : Config) (id : String)
    (st : IndexerState) :
    (indexStore cfg id st).graph_edges = st.graph_edges := rfl

@[simp] theorem graphStep_hash (cfg : Config) (id : String) (p : Option String)
    (st : IndexerState) : (graphStep cfg id p st).hash_store = st.hash_store := by
  cases p <;> rfl

@[simp] theorem graphStep_processed (cfg : Config) (id : String)
    (p : Option String) (st : IndexerState) :
    (graphStep cfg id p st).processed_pages = st.processed_pages := by
  cases p <;> rfl

@[simp] theorem graphStep_nodes (cfg : Config) (id : String) (p : Option String)
    (st : IndexerState) :
    (graphStep cfg id p st).graph_nodes = setKV st.graph_nodes id (freshTitle cfg id) := by
  cases p <;> rfl

@[simp] theorem graphStep_edges_none (cfg : Config) (id : String)
    (st : IndexerState) : (graphStep cfg id none st).graph_edges = st.graph_edges := rfl

@[simp] theorem graphStep_edges_some (cfg : Config) (id q : String)
    (st : IndexerState) :
    (graphStep cfg id (some q) st).graph_edges = addEdge st.graph_edges q id := rfl

/-! ## Branch characterizations of one visit -/

theorem nodeBody_quiet (cfg : Config) (id : String) (p : Option String)
    (st : IndexerState) (h : quietVisit cfg st id) :
    nodeBody cfg id p st = (graphStep cfg id p (countStep cfg id st),
      [Ev.visit id p,
       Ev.decided id (decideOf (List.lookup id st.hash_store) (freshHash cfg id))]) := by
  rcases h with hp | hu | he
  · cases p <;>
      simp [nodeBody, graphStep, countStep, freshTitle, freshHash, hp]
  · by_cases hp : id ∈ st.processed_pages
    · cases p <;>
        simp [nodeBody, graphStep, countStep, freshTitle, freshHash, hp]
    · cases p <;>
        simp [nodeBody, graphStep, countStep, freshTitle, freshHash, hp, hu]
  · by_cases hp : id ∈ st.processed_pages
    · cases p <;>
        simp [nodeBody, graphStep, countStep, freshTitle, freshHash, hp]
    · cases p <;>
        simp [nodeBody, indexBranch, graphStep, countStep, freshTitle,
          freshHash, hp, he]

theorem nodeBody_index (cfg : Config) (id : String) (p : Option String)
    (st : IndexerState) (h1 : id ∉ st.processed_pages)
    (h2 : List.lookup id st.hash_store ≠ some (freshHash cfg id))
    (h3 : cfg.splitText (cfg.fetch id).full_content ≠ []) :
    nodeBody cfg id p st =
      (graphStep cfg id p (indexStore cfg id (countStep cfg id st)),
       Ev.visit id p ::
       Ev.decided id (decideOf (List.lookup id st.hash_store) (freshHash cfg id)) ::
       Ev.vsDelete id (!cfg.deleteFails id) ::
       (((cfg.splitText (cfg.fetch id).full_content).map fun c =>
           Ev.vsAdd id (freshTitle cfg id) c (!cfg.chunkFails id c)) ++
        [Ev.hashUpdate id (freshHash cfg id), Ev.saveHash, Ev.saveProcessed])) := by
  have hempty : (cfg.splitText (cfg.fetch id).full_content).isEmpty = false := by
    cases hc : cfg.splitText (cfg.fetch id).full_content with
    | nil => exact absurd hc h3
    | cons a l => rfl
  have h2' : List.lookup id st.hash_store ≠
      some (cfg.md5 (cfg.fetch id).full_content) := by
    simpa [freshHash] using h2
  cases p <;>
    simp [nodeBody, indexBranch, graphStep, countStep, indexStore, freshTitle,
      freshHash, h1, h2', hempty]

/-! ## Unfolding and inversion for the recursive traversal -/

theorem process_page_succ (cfg : Config) (fuel : Nat) (id : String)
    (p : Option String) (st : IndexerState) :
    process_page cfg (fuel + 1) id p st =
      match runChildren (process_page cfg fuel) id
          (cfg.fetch id).child_pages (nodeBody cfg id p st).1 with
      | none => none
      | some s => some (s.1, (nodeBody cfg id p st).2 ++ s.2) := rfl

theorem process_page_succ_inv {cfg : Config} {fuel : Nat} {id : String}
    {p : Option String} {st st' : IndexerState} {evs : List Ev}
    (h : process_page cfg (fuel + 1) id p st = some (st', evs)) :
    ∃ s, runChildren (process_page cfg fuel) id
        (cfg.fetch id).child_pages (nodeBody cfg id p st).1 = some s ∧
      st' = s.1 ∧ evs = (nodeBody cfg id p st).2 ++ s.2 := by
  rw [process_page_succ] at h
  cases hrc : runChildren (process_page cfg fuel) id
      (cfg.fetch id).child_pages (nodeBody cfg id p st).1 with
  | none => rw [hrc] at h; cases h
  | some s =>
    rw [hrc] at h
    simp only [Option.some.injEq] at h
    exact ⟨s, rfl, congrArg Prod.fst h.symm, congrArg Prod.snd h.symm⟩

theorem runChildren_nil (f : String → Option String → IndexerState →
    Option (IndexerState × List Ev)) (pid : String) (st : IndexerState) :
    runChildren f pid [] st = some (st, []) := rfl

theorem runChildren_cons_inv {f : String → Option String → IndexerState →
    Option (IndexerState × List Ev)} {pid : String} {c : NotionChildPage}
    {cs : List NotionChildPage} {st st' : IndexerState} {evs : List Ev}
    (h : runChildren f pid (c :: cs) st = some (st', evs)) :
    ∃ r s, f c.page_id (some pid) st = some r ∧
      runChildren f pid cs r.1 = some s ∧ st' = s.1 ∧ evs = r.2 ++ s.2 := by
  unfold runChildren at h
  cases hf : f c.page_id (some pid) st with
  | none => rw [hf] at h; cases h
  | some r =>
    rw [hf] at h
    dsimp only at h
    cases hs : runChildren f pid cs r.1 with
    | none => rw [hs] at h; cases h
    | some s =>
      rw [hs] at h
      simp only [Option.some.injEq] at h
      exact ⟨r, s, rfl, hs, congrArg Prod.fst h.symm, congrArg Prod.snd h.symm⟩

theorem runChildren_cons_eq {f : String → Option String → IndexerState →
    Option (IndexerState × List Ev)} {pid : String} {c : NotionChildPage}
    {cs : List NotionChildPage} {st : IndexerState}
    {r s : IndexerState × List Ev}
    (hf : f c.page_id (some pid) st = some r)
    (hs : runChildren f pid cs r.1 = some s) :
    runChildren f pid (c :: cs) st = some (s.1, r.2 ++ s.2) := by
  unfold runChildren
  rw [hf]
  dsimp only
  rw [hs]

/-! ## Visit traces -/

@[simp] theorem visitsOf_nil : visitsOf [] = [] := rfl

@[simp] theorem visitsOf_append (a b : List Ev) :
    visitsOf (a ++ b) = visitsOf a ++ visitsOf b := by
  simp [visitsOf]

@[simp] theorem visitsOf_cons_visit (k : String) (q : Option String)
    (evs : List Ev) :
    visitsOf (Ev.visit k q :: evs) = (k, q) :: visitsOf evs := by
  simp [visitsOf]

@[simp] theorem visitsOf_cons_decided (k : String) (d : Decision)
    (evs : List Ev) : visitsOf (Ev.decided k d :: evs) = visitsOf evs := by
  simp [visitsOf]

@[simp] theorem visitsOf_cons_vsDelete (k : String) (b : Bool) (evs : List Ev) :
    visitsOf (Ev.vsDelete k b :: evs) = visitsOf evs := by
  simp [visitsOf]

@[simp] theorem visitsOf_cons_vsAdd (k t c : String) (b : Bool)
    (evs : List Ev) : visitsOf (Ev.vsAdd k t c b :: evs) = visitsOf evs := by
  simp [visitsOf]

@[simp] theorem visitsOf_cons_hashUpdate (k fp : String) (evs : List Ev) :
    visitsOf (Ev.hashUpdate k fp :: evs) = visitsOf evs := by
  simp [visitsOf]

@[simp] theorem visitsOf_cons_saveHash (evs : List Ev) :
    visitsOf (Ev.saveHash :: evs) = visitsOf evs := by
  simp [visitsOf]

@[simp] theorem visitsOf_cons_saveProcessed (evs : List Ev) :
    visitsOf (Ev.saveProcessed :: evs) = visitsOf evs := by
  simp [visitsOf]

@[simp] theorem visitsOf_cons_saveGraph (evs : List Ev) :
    visitsOf (Ev.saveGraph :: evs) = visitsOf evs := by
  simp [visitsOf]

theorem not_quiet_parts {cfg : Config} {st : IndexerState} {id : String}
    (h : ¬ quietVisit cfg st id) :
    id ∉ st.processed_pages ∧
    List.lookup id st.hash_store ≠ some (freshHash cfg id) ∧
    cfg.splitText (cfg.fetch id).full_content ≠ [] := by
  unfold quietVisit at h
  push_neg at h
  exact h

theorem nodeBody_visits (cfg : Config) (id : String) (p : Option String)
    (st : IndexerState) : visitsOf (nodeBody cfg id p st).2 = [(id, p)] := by
  by_cases h : quietVisit cfg st id
  · rw [nodeBody_quiet cfg id p st h]; simp
  · obtain ⟨h1, h2, h3⟩ := not_quiet_parts h
    rw [nodeBody_index cfg id p st h1 h2 h3]
    simp [visitsOf, List.filterMap_map]

theorem pp_visit_head {cfg : Config} {fuel : Nat} {id : String}
    {p : Option String} {st st' : IndexerState} {evs : List Ev}
    (h : process_page cfg fuel id p st = some (st', evs)) :
    ∃ rest, visitsOf evs = (id, p) :: rest := by
  cases fuel with
  | zero => simp [process_page] at h
  | succ fuel =>
    obtain ⟨s, _, _, hevs⟩ := process_page_succ_inv h
    refine ⟨visitsOf s.2, ?_⟩
    rw [hevs, visitsOf_append, nodeBody_visits]
    rfl

theorem runChildren_visits {cfg : Config} {fuel : Nat} {pid : String}
    {cs : List NotionChildPage} {st st' : IndexerState} {evs : List Ev}
    (h : runChildren (process_page cfg fuel) pid cs st = some (st', evs)) :
    ∀ c ∈ cs, (c.page_id, some pid) ∈ visitsOf evs := by
  induction cs generalizing st st' evs with
  | nil => intro c hc; cases hc
  | cons c0 cs ih =>
    obtain ⟨r, s, hf, hs, _, hevs⟩ := runChildren_cons_inv h
    intro c hc
    cases hc with
    | head =>
      obtain ⟨rest, hv⟩ := pp_visit_head hf
      rw [hevs, visitsOf_append, hv]
      simp
    | tail _ hc =>
      rw [hevs, visitsOf_append]
      exact List.mem_append_right _ (ih hs c hc)

/-! ## A generic lifting of per-visit properties over the child loop -/

theorem runChildren_lift (P : IndexerState → IndexerState → List Ev → Prop)
    (Prefl : ∀ st, P st st [])
    (Pcomp : ∀ st1 st2 st3 e1 e2,
      P st1 st2 e1 → P st2 st3 e2 → P st1 st3 (e1 ++ e2))
    (f : String → Option String → IndexerState → Option (IndexerState × List Ev))
    (hf : ∀ cid q st r, f cid q st = some r → P st r.1 r.2) :
    ∀ cs pid st s, runChildren f pid cs st = some s → P st s.1 s.2 := by
  intro cs
  induction cs with
  | nil =>
    intro pid st s h
    rw [runChildren_nil] at h
    cases h
    exact Prefl st
  | cons c cs ih =>
    intro pid st s h
    obtain ⟨r, sr, hfc, hrc, hst, hevs⟩ := runChildren_cons_inv h
    have h1 := hf c.page_id (some pid) st r hfc
    have h2 := ih pid r.1 sr hrc
    have := Pcomp st r.1 sr.1 r.2 sr.2 h1 h2
    rw [hst, hevs]
    exact this

/-! ## Trace soundness -/

theorem traceOK_refl (cfg : Config) (st : IndexerState) : TraceOK cfg st st [] := by
  refine ⟨fun k => Or.inl rfl, fun k _ => rfl, ?_, ?_, ?_⟩ <;>
    intros <;> simp_all

theorem traceOK_comp (cfg : Config) (st1 st2 st3 : IndexerState)
    (e1 e2 : List Ev) (h1 : TraceOK cfg st1 st2 e1) (h2 : TraceOK cfg st2 st3 e2) :
    TraceOK cfg st1 st3 (e1 ++ e2) := by
  obtain ⟨h1s, h1h, h1d, h1a, h1u⟩ := h1
  obtain ⟨h2s, h2h, h2d, h2a, h2u⟩ := h2
  refine ⟨?_, fun k hk => (h2h k hk).trans (h1h k hk), ?_, ?_, ?_⟩
  · intro k
    rcases h2s k with h | h
    · rw [h]; exact h1s k
    · exact Or.inr h
  · intro k b hb
    rcases List.mem_append.1 hb with hb | hb
    · exact h1d k b hb
    · exact h2d k b hb
  · intro k t c b hb
    rcases List.mem_append.1 hb with hb | hb
    · exact h1a k t c b hb
    · exact h2a k t c b hb
  · intro k fp hb
    rcases List.mem_append.1 hb with hb | hb
    · exact h1u k fp hb
    · exact h2u k fp hb

theorem nodeBody_traceOK (cfg : Config) (id : String) (p : Option String)
    (st : IndexerState) :
    TraceOK cfg st (nodeBody cfg id p st).1 (nodeBody cfg id p st).2 := by
  by_cases h : quietVisit cfg st id
  · rw [nodeBody_quiet cfg id p st h]
    refine ⟨fun k => Or.inl (by simp), fun k _ => by simp, ?_, ?_, ?_⟩ <;>
      intros <;> simp_all
  · obtain ⟨h1, h2, h3⟩ := not_quiet_parts h
    rw [nodeBody_index cfg id p st h1 h2 h3]
    refine ⟨?_, ?_, ?_, ?_, ?_⟩
    · intro k
      by_cases hk : k = id
      · subst hk
        exact Or.inr (by simp [lookup_setKV_self])
      · exact Or.inl (by simp [lookup_setKV_ne _ _ hk])
    · intro k hk
      have hne : k ≠ id := fun he => h3 (he ▸ hk)
      simp [lookup_setKV_ne _ _ hne]
    · intro k b hb
      simp [List.mem_cons, List.mem_append, List.mem_map] at hb
      obtain ⟨rfl, rfl⟩ := hb
      exact ⟨h3, rfl⟩
    · intro k t c b hb
      simp [List.mem_cons, List.mem_append, List.mem_map] at hb
      obtain ⟨a, ha, h4, h5, h6, h7⟩ := hb
      subst h4; subst h5; subst h6
      exact ⟨h3, rfl, ha, by rw [h7]; simp⟩
    · intro k fp hb
      simp [List.mem_cons, List.mem_append, List.mem_map] at hb
      obtain ⟨rfl, rfl⟩ := hb
      exact ⟨h3, rfl⟩

theorem pp_traceOK (cfg : Config) :
    ∀ fuel id p st s, process_page cfg fuel id p st = some s →
      TraceOK cfg st s.1 s.2 := by
  intro fuel
  induction fuel with
  | zero => intro id p st s h; simp [process_page] at h
  | succ fuel ih =>
    intro id p st s h
    obtain ⟨sc, hrc, hst, hevs⟩ := process_page_succ_inv (show _ = some (s.1, s.2) from h)
    have hb := nodeBody_traceOK cfg id p st
    have hc := runChildren_lift (TraceOK cfg) (traceOK_refl cfg)
      (traceOK_comp cfg) (process_page cfg fuel)
      (fun cid q st' r hr => ih cid q st' r hr) _ _ _ _ hrc
    have := traceOK_comp cfg st (nodeBody cfg id p st).1 sc.1
      (nodeBody cfg id p st).2 sc.2 hb hc
    rw [hst, hevs]
    exact this

/-! ## Monotonicity of the stores along a run -/

theorem mono_refl (st : IndexerState) : Mono st st :=
  ⟨fun _ h => h, fun _ h => h, fun _ h => h, fun _ h => h⟩

theorem mono_trans {st1 st2 st3 : IndexerState} (h1 : Mono st1 st2)
    (h2 : Mono st2 st3) : Mono st1 st3 :=
  ⟨fun k h => h2.1 k (h1.1 k h), fun k h => h2.2.1 k (h1.2.1 k h),
   fun k h => h2.2.2.1 k (h1.2.2.1 k h), fun e h => h2.2.2.2 e (h1.2.2.2 e h)⟩

theorem stableAt_mono {cfg : Config} {st st' : IndexerState}
    (hg : GoodState cfg st') (hm : Mono st st')
    {pr : String × Option String} (h : StableAt cfg st pr) :
    StableAt cfg st' pr := by
  obtain ⟨hq, hn, he⟩ := h
  refine ⟨?_, ?_, fun q hq2 => hm.2.2.2 _ (he q hq2)⟩
  · rcases hq with hp | hu | hs
    · exact Or.inl (hm.1 _ hp)
    · have hsome : (List.lookup pr.1 st'.hash_store).isSome :=
        hm.2.1 _ (by rw [hu]; rfl)
      obtain ⟨v, hv⟩ := Option.isSome_iff_exists.1 hsome
      exact Or.inr (Or.inl (by rw [hv, hg.1 _ _ hv]))
    · exact Or.inr (Or.inr hs)
  · have hsome : (List.lookup pr.1 st'.graph_nodes).isSome :=
      hm.2.2.1 _ (by rw [hn]; rfl)
    obtain ⟨v, hv⟩ := Option.isSome_iff_exists.1 hsome
    rw [hv, hg.2.1.1 _ _ hv]

theorem visitedOK_mono {cfg : Config} {st st' : IndexerState}
    (hg : GoodState cfg st') (hm : Mono st st') {evs : List Ev}
    (h : VisitedOK cfg st evs) : VisitedOK cfg st' evs :=
  fun pr hpr => stableAt_mono hg hm (h pr hpr)

/-- The postcondition of one visit: the invariant is kept, the stores only
grow, and every visited pair of the visit's own trace is stable in the
resulting state. -/
theorem nodeBody_post (cfg : Config) (id : String) (p : Option String)
    (st : IndexerState) (hg : GoodState cfg st) :
    GoodState cfg (nodeBody cfg id p st).1 ∧ Mono st (nodeBody cfg id p st).1 ∧
    VisitedOK cfg (nodeBody cfg id p st).1 (nodeBody cfg id p st).2 := by
  obtain ⟨hh, ⟨hnv, hnd⟩, hed⟩ := hg
  have hnodes : ∀ (st1 : IndexerState),
      st1.graph_nodes = setKV st.graph_nodes id (freshTitle cfg id) →
      (∀ k t, List.lookup k st1.graph_nodes = some t → t = freshTitle cfg k) ∧
      (st1.graph_nodes.map Prod.fst).Nodup ∧
      List.lookup id st1.graph_nodes = some (freshTitle cfg id) := by
    intro st1 h1
    rw [h1]
    refine ⟨?_, keys_nodup_setKV _ _ _ hnd, lookup_setKV_self _ _ _⟩
    intro k t hk
    by_cases hki : k = id
    · subst hki
      rw [lookup_setKV_self] at hk
      exact (Option.some.injEq _ _ ▸ hk).symm ▸ rfl
    · rw [lookup_setKV_ne _ _ hki] at hk
      exact hnv k t hk
  by_cases h : quietVisit cfg st id
  · rw [nodeBody_quiet cfg id p st h]
    have hn := hnodes (graphStep cfg id p (countStep cfg id st)) (by simp)
    refine ⟨⟨fun k v hk => hh k v (by simpa using hk),
      ⟨hn.1, hn.2.1⟩, ?_⟩, ?_, ?_⟩
    · cases p with
      | none => simpa using hed
      | some q => simpa using addEdge_nodup _ _ _ hed
    · refine ⟨fun k hk => by simpa using hk, fun k hk => by simpa using hk,
        fun k hk => by simpa using lookup_isSome_setKV _ id k _ hk, ?_⟩
      intro e he
      cases p with
      | none => simpa using he
      | some q => simpa using addEdge_mem_of_mem _ _ _ _ he
    · intro pr hpr
      simp only [visitsOf_cons_visit, visitsOf_cons_decided, visitsOf_nil,
        List.mem_singleton] at hpr
      subst hpr
      refine ⟨?_, hn.2.2, ?_⟩
      · rcases h with hp | hu | hs
        · exact Or.inl (by simpa using hp)
        · exact Or.inr (Or.inl (by simpa using hu))
        · exact Or.inr (Or.inr hs)
      · intro q hq
        cases p with
        | none => cases hq
        | some q' =>
          cases hq
          simpa using addEdge_mem_self _ _ _
  · obtain ⟨h1, h2, h3⟩ := not_quiet_parts h
    rw [nodeBody_index cfg id p st h1 h2 h3]
    have hn := hnodes
      (graphStep cfg id p (indexStore cfg id (countStep cfg id st))) (by simp)
    refine ⟨⟨?_, ⟨hn.1, hn.2.1⟩, ?_⟩, ?_, ?_⟩
    · intro k v hk
      simp only [graphStep_hash, indexStore_hash, countStep_hash] at hk
      by_cases hki : k = id
      · subst hki
        rw [lookup_setKV_self] at hk
        exact (Option.some.injEq _ _ ▸ hk).symm ▸ rfl
      · rw [lookup_setKV_ne _ _ hki] at hk
        exact hh k v hk
    · cases p with
      | none => simpa using hed
      | some q => simpa using addEdge_nodup _ _ _ hed
    · refine ⟨fun k hk => by simpa using mem_insertS_of_mem _ _ _ hk,
        fun k hk => by simpa using lookup_isSome_setKV _ id k _ hk,
        fun k hk => by simpa using lookup_isSome_setKV _ id k _ hk, ?_⟩
      intro e he
      cases p with
      | none => simpa using he
      | some q => simpa using addEdge_mem_of_mem _ _ _ _ he
    · intro pr hpr
      simp only [List.cons_append, visitsOf_cons_visit, visitsOf_cons_decided,
        visitsOf_cons_vsDelete] at hpr
      rw [visitsOf_append] at hpr
      simp only [visitsOf_cons_hashUpdate, visitsOf_cons_saveHash,
        visitsOf_cons_saveProcessed, visitsOf_nil, List.append_nil] at hpr
      have hmap : visitsOf ((cfg.splitText (cfg.fetch id).full_content).map
          fun c => Ev.vsAdd id (freshTitle cfg id) c (!cfg.chunkFails id c)) = [] := by
        simp [visitsOf, List.filterMap_map]
      rw [hmap] at hpr
      simp only [List.mem_singleton] at hpr
      subst hpr
      refine ⟨Or.inl (by simpa using mem_insertS_self _ _), hn.2.2, ?_⟩
      intro q hq
      cases p with
      | none => cases hq
      | some q' =>
        cases hq
        simpa using addEdge_mem_self _ _ _

/-- The run-1 postcondition lifted over the whole traversal. -/
theorem pp_post (cfg : Config) :
    ∀ fuel id p st s, process_page cfg fuel id p st = some s →
      GoodState cfg st →
      GoodState cfg s.1 ∧ Mono st s.1 ∧ VisitedOK cfg s.1 s.2 := by
  intro fuel
  induction fuel with
  | zero => intro id p st s h; simp [process_page] at h
  | succ fuel ih =>
    intro id p st s h hg
    obtain ⟨sc, hrc, hst, hevs⟩ := process_page_succ_inv (show _ = some (s.1, s.2) from h)
    obtain ⟨hg1, hm1, hv1⟩ := nodeBody_post cfg id p st hg
    have hlift := runChildren_lift
      (fun st1 st2 e => GoodState cfg st1 →
        GoodState cfg st2 ∧ Mono st1 st2 ∧ VisitedOK cfg st2 e)
      (fun st1 _ => ⟨by assumption, mono_refl st1, fun pr hpr => by cases hpr⟩)
      (fun st1 st2 st3 e1 e2 hP1 hP2 hgx => by
        obtain ⟨hga, hma, hva⟩ := hP1 hgx
        obtain ⟨hgb, hmb, hvb⟩ := hP2 hga
        refine ⟨hgb, mono_trans hma hmb, ?_⟩
        intro pr hpr
        rw [visitsOf_append] at hpr
        rcases List.mem_append.1 hpr with hpr | hpr
        · exact stableAt_mono hgb hmb (hva pr hpr)
        · exact hvb pr hpr)
      (process_page cfg fuel)
      (fun cid q stx r hr hgx => ih cid q stx r hr hgx)
      _ _ _ _ hrc
    obtain ⟨hg2, hm2, hv2⟩ := hlift hg1
    refine ⟨hst ▸ hg2, hst ▸ mono_trans hm1 hm2, ?_⟩
    intro pr hpr
    rw [hevs, visitsOf_append] at hpr
    rcases List.mem_append.1 hpr with hpr | hpr
    · exact hst ▸ stableAt_mono hg2 hm2 (hv1 pr hpr)
    · exact hst ▸ hv2 pr hpr

/-- A fresh indexer state satisfies the standing invariant. -/
theorem goodState_init (cfg : Config) : GoodState cfg initState := by
  refine ⟨?_, ⟨?_, ?_⟩, ?_⟩ <;> simp [initState, GoodHash, List.lookup]

/-! ## Store-equality transfer and run inversion -/

theorem storesEq_refl (st : IndexerState) : storesEq st st :=
  ⟨rfl, rfl, rfl, rfl⟩

theorem storesEq_trans {st1 st2 st3 : IndexerState} (h1 : storesEq st1 st2)
    (h2 : storesEq st2 st3) : storesEq st1 st3 :=
  ⟨h2.1.trans h1.1, h2.2.1.trans h1.2.1, h2.2.2.1.trans h1.2.2.1,
   h2.2.2.2.trans h1.2.2.2⟩

theorem goodState_storesEq {cfg : Config} {st st' : IndexerState}
    (he : storesEq st st') (hg : GoodState cfg st) : GoodState cfg st' := by
  obtain ⟨e1, e2, e3, e4⟩ := he
  refine ⟨fun k v hk => hg.1 k v (by rwa [e1] at hk), ⟨?_, ?_⟩, ?_⟩
  · intro k t hk
    exact hg.2.1.1 k t (by rwa [e3] at hk)
  · rw [e3]; exact hg.2.1.2
  · rw [e4]; exact hg.2.2

theorem stableAt_storesEq {cfg : Config} {st st' : IndexerState}
    (he : storesEq st st') {pr : String × Option String}
    (h : StableAt cfg st pr) : StableAt cfg st' pr := by
  obtain ⟨e1, e2, e3, e4⟩ := he
  obtain ⟨hq, hn, hee⟩ := h
  refine ⟨?_, by rw [e3]; exact hn, fun q hq2 => by rw [e4]; exact hee q hq2⟩
  rcases hq with hp | hu | hs
  · exact Or.inl (by rw [e2]; exact hp)
  · exact Or.inr (Or.inl (by rw [e1]; exact hu))
  · exact Or.inr (Or.inr hs)

theorem run_inv {cfg : Config} {fuel : Nat} {st stf : IndexerState}
    {evs : List Ev} (h : run cfg fuel st = some (stf, evs)) :
    ∃ s, process_page cfg fuel cfg.root_page_id none
      { st with total_pages_found := 1, pages_processed := 0 } = some s ∧
      stf = s.1 ∧ evs = s.2 ++ [Ev.saveGraph] := by
  unfold run at h
  cases hpp : process_page cfg fuel cfg.root_page_id none
      { st with total_pages_found := 1, pages_processed := 0 } with
  | none => rw [hpp] at h; cases h
  | some r =>
    rw [hpp] at h
    simp only [Option.some.injEq] at h
    exact ⟨r, rfl, congrArg Prod.fst h.symm, congrArg Prod.snd h.symm⟩

theorem run_eq {cfg : Config} {fuel : Nat} {st : IndexerState}
    {s : IndexerState × List Ev}
    (h : process_page cfg fuel cfg.root_page_id none
      { st with total_pages_found := 1, pages_processed := 0 } = some s) :
    run cfg fuel st = some (s.1, s.2 ++ [Ev.saveGraph]) := by
  unfold run
  rw [h]

/-! ## The visit trace depends only on the corpus -/

theorem pp_det (cfg : Config) :
    ∀ fuel id p stA sA, process_page cfg fuel id p stA = some sA →
      ∀ stB, ∃ sB, process_page cfg fuel id p stB = some sB ∧
        visitsOf sB.2 = visitsOf sA.2 := by
  intro fuel
  induction fuel with
  | zero => intro id p stA sA h; simp [process_page] at h
  | succ fuel ih =>
    have hchild : ∀ cs pid stA0 sA0,
        runChildren (process_page cfg fuel) pid cs stA0 = some sA0 →
        ∀ stB0, ∃ sB0,
          runChildren (process_page cfg fuel) pid cs stB0 = some sB0 ∧
          visitsOf sB0.2 = visitsOf sA0.2 := by
      intro cs
      induction cs with
      | nil =>
        intro pid stA0 sA0 h stB0
        rw [runChildren_nil] at h
        cases h
        exact ⟨(stB0, []), runChildren_nil _ _ _, rfl⟩
      | cons c cs ihc =>
        intro pid stA0 sA0 h stB0
        obtain ⟨r, sr, hf, hs, hst, hevs⟩ := runChildren_cons_inv (show _ = some (sA0.1, sA0.2) from h)
        obtain ⟨sB1, hfB, hv1⟩ := ih c.page_id (some pid) stA0 r hf stB0
        obtain ⟨sB2, hsB, hv2⟩ := ihc pid r.1 sr hs sB1.1
        refine ⟨(sB2.1, sB1.2 ++ sB2.2), runChildren_cons_eq hfB hsB, ?_⟩
        rw [hevs]
        simp only [visitsOf_append, hv1, hv2]
    intro id p stA sA h stB
    obtain ⟨sc, hrc, hst, hevs⟩ := process_page_succ_inv (show _ = some (sA.1, sA.2) from h)
    obtain ⟨scB, hrcB, hvB⟩ := hchild (cfg.fetch id).child_pages id
      (nodeBody cfg id p stA).1 sc hrc (nodeBody cfg id p stB).1
    refine ⟨(scB.1, (nodeBody cfg id p stB).2 ++ scB.2), ?_, ?_⟩
    · rw [process_page_succ, hrcB]
    · rw [hevs]
      simp only [visitsOf_append, nodeBody_visits, hvB]

/-! ## The second-visit no-op lemma -/

theorem pp_noop (cfg : Config) :
    ∀ fuel id p st s, process_page cfg fuel id p st = some s →
      GoodState cfg st →
      (∀ pr ∈ visitsOf s.2, StableAt cfg st pr) →
      storesEq st s.1 ∧ (∀ e ∈ s.2, isWrite e = false) ∧
      (∀ k d, Ev.decided k d ∈ s.2 →
        (List.lookup k st.hash_store).isSome → d = Decision.unchanged) := by
  intro fuel
  induction fuel with
  | zero => intro id p st s h; simp [process_page] at h
  | succ fuel ih =>
    have hchild : ∀ cs pid st0 s0,
        runChildren (process_page cfg fuel) pid cs st0 = some s0 →
        GoodState cfg st0 →
        (∀ pr ∈ visitsOf s0.2, StableAt cfg st0 pr) →
        storesEq st0 s0.1 ∧ (∀ e ∈ s0.2, isWrite e = false) ∧
        (∀ k d, Ev.decided k d ∈ s0.2 →
          (List.lookup k st0.hash_store).isSome → d = Decision.unchanged) := by
      intro cs
      induction cs with
      | nil =>
        intro pid st0 s0 h _ _
        rw [runChildren_nil] at h
        cases h
        exact ⟨storesEq_refl _, fun e he => ((List.not_mem_nil _) he).elim,
          fun k d hd => ((List.not_mem_nil _) hd).elim⟩
      | cons c cs ihc =>
        intro pid st0 s0 h hg0 hstab0
        obtain ⟨r, sr, hf, hs, hst, hevs⟩ := runChildren_cons_inv (show _ = some (s0.1, s0.2) from h)
        have hsub1 : ∀ pr ∈ visitsOf r.2, StableAt cfg st0 pr := by
          intro pr hpr
          refine hstab0 pr ?_
          rw [hevs, visitsOf_append]
          exact List.mem_append_left _ hpr
        have h1 := ih c.page_id (some pid) st0 r hf hg0 hsub1
        have he1 : storesEq st0 r.1 := h1.1
        have hg1 : GoodState cfg r.1 := goodState_storesEq he1 hg0
        have hsub2 : ∀ pr ∈ visitsOf sr.2, StableAt cfg r.1 pr := by
          intro pr hpr
          refine stableAt_storesEq he1 (hstab0 pr ?_)
          rw [hevs, visitsOf_append]
          exact List.mem_append_right _ hpr
        have h2 := ihc pid r.1 sr hs hg1 hsub2
        refine ⟨?_, ?_, ?_⟩
        · rw [hst]
          exact storesEq_trans he1 h2.1
        · intro e he
          rw [hevs] at he
          rcases List.mem_append.1 he with he | he
          · exact h1.2.1 e he
          · exact h2.2.1 e he
        · intro k d hd hk
          rw [hevs] at hd
          rcases List.mem_append.1 hd with hd | hd
          · exact h1.2.2 k d hd hk
          · exact h2.2.2 k d hd (by rwa [he1.1])
    intro id p st s h hg hstab
    obtain ⟨sc, hrc, hst, hevs⟩ := process_page_succ_inv (show _ = some (s.1, s.2) from h)
    have hhead : StableAt cfg st (id, p) := by
      refine hstab (id, p) ?_
      rw [hevs, visitsOf_append, nodeBody_visits]
      exact List.mem_cons_self _ _
    obtain ⟨hq, hn, he⟩ := hhead
    rw [nodeBody_quiet cfg id p st hq] at hrc hevs
    dsimp only at hrc hevs
    have hbodyEq : storesEq st (graphStep cfg id p (countStep cfg id st)) := by
      refine ⟨by simp, by simp, ?_, ?_⟩
      · simp only [graphStep_nodes, countStep_nodes]
        exact setKV_self _ _ _ hg.2.1.2 hn
      · cases p with
        | none => simp
        | some q =>
          simp only [graphStep_edges_some, countStep_edges]
          exact addEdge_of_mem _ _ _ (he q rfl)
    have hgB : GoodState cfg (graphStep cfg id p (countStep cfg id st)) :=
      goodState_storesEq hbodyEq hg
    have hsubc : ∀ pr ∈ visitsOf sc.2,
        StableAt cfg (graphStep cfg id p (countStep cfg id st)) pr := by
      intro pr hpr
      refine stableAt_storesEq hbodyEq (hstab pr ?_)
      rw [hevs, visitsOf_append]
      refine List.mem_append_right _ ?_
      simpa using hpr
    have hc := hchild (cfg.fetch id).child_pages id _ sc hrc hgB hsubc
    refine ⟨?_, ?_, ?_⟩
    · rw [hst]
      exact storesEq_trans hbodyEq hc.1
    · intro e hee
      rw [hevs] at hee
      rcases List.mem_append.1 hee with hee | hee
      · simp only [List.mem_cons, List.not_mem_nil, or_false] at hee
        rcases hee with rfl | rfl <;> rfl
      · exact hc.2.1 e hee
    · intro k d hd hk
      rw [hevs] at hd
      rcases List.mem_append.1 hd with hd | hd
      · simp only [List.mem_cons, List.not_mem_nil, or_false] at hd
        rcases hd with hd | hd
        · cases hd
        · have hkid : k = id := by cases hd; rfl
          subst hkid
          have hdval : d = decideOf (List.lookup k st.hash_store)
              (freshHash cfg k) := by cases hd; rfl
          obtain ⟨v, hv⟩ := Option.isSome_iff_exists.1 hk
          have hvf : v = freshHash cfg k := hg.1 k v hv
          rw [hdval, hv, hvf]
          simp [decideOf]
      · exact hc.2.2 k d hd (by rwa [hbodyEq.1])

theorem countP_eq_one_of_nodup_mem {α : Type} [DecidableEq α] (l : List α)
    (a : α) (hd : l.Nodup) (hm : a ∈ l) :
    l.countP (fun e => decide (e = a)) = 1 := by
  induction l with
  | nil => cases hm
  | cons x xs ih =>
    rw [List.countP_cons]
    rcases List.mem_cons.1 hm with rfl | hm2
    · have hx : a ∉ xs := (List.nodup_cons.1 hd).1
      have hz : xs.countP (fun e => decide (e = a)) = 0 := by
        rw [List.countP_eq_zero]
        intro b hb
        simp only [decide_eq_true_eq]
        exact fun hba => hx (hba ▸ hb)
      simp [hz]
    · have hne : x ≠ a := by
        rintro rfl
        exact (List.nodup_cons.1 hd).1 hm2
      rw [ih (List.nodup_cons.1 hd).2 hm2]
      simp [hne]

/-! ## Claim theorems -/

/-- Claim C4: when some chunk submissions for an indexed node fail, every
chunk is still submitted (the failing one with a false success flag), the
node's ContentHash entry is still updated to the fresh fingerprint after
the chunk phase, the saves still happen, and traversal continues into the
node's children. -/
theorem chunk_failures_tolerated (cfg : Config) (fuel : Nat) (id : String)
    (p : Option String) (st st' : IndexerState) (evs : List Ev) (c0 : String)
    (hrun : process_page cfg (fuel + 1) id p st = some (st', evs))
    (h1 : id ∉ st.processed_pages)
    (h2 : List.lookup id st.hash_store ≠ some (freshHash cfg id))
    (hc0 : c0 ∈ cfg.splitText (cfg.fetch id).full_content)
    (hfail : cfg.chunkFails id c0 = true) :
    (∀ c ∈ cfg.splitText (cfg.fetch id).full_content,
      Ev.vsAdd id (freshTitle cfg id) c (!cfg.chunkFails id c) ∈ evs) ∧
    Ev.vsAdd id (freshTitle cfg id) c0 false ∈ evs ∧
    List.lookup id st'.hash_store = some (freshHash cfg id) ∧
    Ev.hashUpdate id (freshHash cfg id) ∈ evs ∧
    Ev.saveHash ∈ evs ∧ Ev.saveProcessed ∈ evs ∧
    (∀ c ∈ (cfg.fetch id).child_pages, (c.page_id, some id) ∈ visitsOf evs) := by
  have h3 : cfg.splitText (cfg.fetch id).full_content ≠ [] :=
    List.ne_nil_of_mem hc0
  obtain ⟨sc, hrc, hst, hevs⟩ := process_page_succ_inv hrun
  rw [nodeBody_index cfg id p st h1 h2 h3] at hevs
  dsimp only at hevs
  have hmem : ∀ c ∈ cfg.splitText (cfg.fetch id).full_content,
      Ev.vsAdd id (freshTitle cfg id) c (!cfg.chunkFails id c) ∈ evs := by
    intro c hc
    rw [hevs]
    refine List.mem_append_left _ ?_
    exact List.mem_cons_of_mem _ (List.mem_cons_of_mem _
      (List.mem_cons_of_mem _
        (List.mem_append_left _ (List.mem_map_of_mem _ hc))))
  refine ⟨hmem, ?_, ?_, ?_, ?_, ?_, ?_⟩
  · have := hmem c0 hc0
    rwa [hfail] at this
  · have hbody : List.lookup id
        (nodeBody cfg id p st).1.hash_store = some (freshHash cfg id) := by
      rw [nodeBody_index cfg id p st h1 h2 h3]
      simp [lookup_setKV_self]
    have htr := runChildren_lift (TraceOK cfg) (traceOK_refl cfg)
      (traceOK_comp cfg) (process_page cfg fuel)
      (fun cid q stx r hr => pp_traceOK cfg fuel cid q stx r hr) _ _ _ _ hrc
    rcases htr.1 id with hh | hh
    · rw [hst, hh]; exact hbody
    · rw [hst]; exact hh
  · rw [hevs]; simp
  · rw [hevs]; simp
  · rw [hevs]; simp
  · intro c hc
    have hv := runChildren_visits hrc c hc
    rw [hevs, List.cons_append, List.cons_append, List.cons_append,
      visitsOf_cons_visit, visitsOf_cons_decided, visitsOf_cons_vsDelete,
      visitsOf_append]
    exact List.mem_cons_of_mem _ (List.mem_append_right _ hv)

/-- Witness for C4 on the concrete corpus `wCfgChunkFail`: the chunk
"hello" of the root fails, "world" is still submitted, and the root's
fingerprint is recorded. -/
theorem chunk_failures_tolerated_witness :
    Ev.vsAdd "r" "Root" "hello" false ∈ c4wEvs ∧
    Ev.vsAdd "r" "Root" "world" (!wCfgChunkFail.chunkFails "r" "world") ∈ c4wEvs ∧
    List.lookup "r" c4wSt.hash_store = some "hello world" := by
  have h := chunk_failures_tolerated wCfgChunkFail 1 "r" none initState
    c4wSt c4wEvs "hello" (by decide) (by decide) (by decide) (by decide)
    (by decide)
  exact ⟨h.2.1, h.1 "world" (by decide), h.2.2.1⟩

/-- Claim C5: for a node whose ContentHash and ProcessedSet entries are
updated, both saves land in a prefix of the node's trace that contains no
visit of any other node — so persistence happens before the driver visits
any child and before any sibling (second conjunct: sibling traces follow
the whole earlier-child trace in the parent's child loop). -/
theorem persist_before_children_and_siblings :
    (∀ (cfg : Config) (fuel : Nat) (id : String) (p : Option String)
      (st st' : IndexerState) (evs : List Ev),
      process_page cfg fuel id p st = some (st', evs) →
      willIndex cfg st id →
      ∃ pre post, evs = pre ++ post ∧ Ev.saveHash ∈ pre ∧
        Ev.saveProcessed ∈ pre ∧ ∀ k q, Ev.visit k q ∈ pre → k = id) ∧
    (∀ (f : String → Option String → IndexerState →
        Option (IndexerState × List Ev)) (pid : String) (c : NotionChildPage)
      (cs : List NotionChildPage) (st stf : IndexerState) (evs : List Ev),
      runChildren f pid (c :: cs) st = some (stf, evs) →
      ∃ st1 e1 e2, f c.page_id (some pid) st = some (st1, e1) ∧
        runChildren f pid cs st1 = some (stf, e2) ∧ evs = e1 ++ e2) := by
  constructor
  · intro cfg fuel id p st st' evs hrun hwill
    cases fuel with
    | zero => simp [process_page] at hrun
    | succ fuel =>
      obtain ⟨sc, hrc, hst, hevs⟩ := process_page_succ_inv hrun
      obtain ⟨h1, h2, h3⟩ := hwill
      rw [nodeBody_index cfg id p st h1 h2 h3] at hevs
      dsimp only at hevs
      refine ⟨Ev.visit id p ::
        Ev.decided id (decideOf (List.lookup id st.hash_store) (freshHash cfg id)) ::
        Ev.vsDelete id (!cfg.deleteFails id) ::
        (((cfg.splitText (cfg.fetch id).full_content).map fun c =>
          Ev.vsAdd id (freshTitle cfg id) c (!cfg.chunkFails id c)) ++
         [Ev.hashUpdate id (freshHash cfg id), Ev.saveHash, Ev.saveProcessed]),
        sc.2, ?_, by simp, by simp, ?_⟩
      · rw [hevs]
      · intro k q hkq
        simp at hkq
        exact hkq.1
  · intro f pid c cs st stf evs h
    obtain ⟨r, s, hf, hs, hst, hevs⟩ := runChildren_cons_inv h
    subst hst
    exact ⟨r.1, r.2, s.2, hf, hs, hevs⟩

/-- Witness for C5 on the concrete corpus `wCfg` at node "a". -/
theorem persist_before_children_and_siblings_witness :
    ∃ pre post, c5wEvs = pre ++ post ∧ Ev.saveHash ∈ pre ∧
      Ev.saveProcessed ∈ pre ∧ ∀ k q, Ev.visit k q ∈ pre → k = "a" :=
  persist_before_children_and_siblings.1 wCfg 1 "a" none initState
    c5wSt c5wEvs (by decide) (by decide)

/-- Claim C6: a new or modified page whose content splits into zero chunks
is a no-op: its ContentHash entry is untouched for the entire run, no
delete or add for its id ever reaches the embedding store, and the
traversal still proceeds into its children. -/
theorem empty_content_noop (cfg : Config) (fuel : Nat) (id : String)
    (p : Option String) (st st' : IndexerState) (evs : List Ev)
    (hrun : process_page cfg (fuel + 1) id p st = some (st', evs))
    (hchanged : List.lookup id st.hash_store ≠ some (freshHash cfg id))
    (hempty : cfg.splitText (cfg.fetch id).full_content = []) :
    List.lookup id st'.hash_store = List.lookup id st.hash_store ∧
    (∀ b, Ev.vsDelete id b ∉ evs) ∧
    (∀ t c b, Ev.vsAdd id t c b ∉ evs) ∧
    (∀ fp, Ev.hashUpdate id fp ∉ evs) ∧
    (∀ c ∈ (cfg.fetch id).child_pages, (c.page_id, some id) ∈ visitsOf evs) := by
  have htr := pp_traceOK cfg (fuel + 1) id p st (st', evs) hrun
  obtain ⟨hsnd, hh, hd, ha, hu⟩ := htr
  refine ⟨hh id hempty, ?_, ?_, ?_, ?_⟩
  · intro b hb; exact ((hd id b hb).1 hempty).elim
  · intro t c b hb; exact ((ha id t c b hb).1 hempty).elim
  · intro fp hb; exact ((hu id fp hb).1 hempty).elim
  · obtain ⟨sc, hrc, hst, hevs⟩ := process_page_succ_inv hrun
    intro c hc
    have := runChildren_visits hrc c hc
    rw [hevs, visitsOf_append]
    exact List.mem_append_right _ this

/-- Witness for C6 on `wCfgEmptyRoot`: the empty root gets no ContentHash
entry while its child "a" is still visited. -/
theorem empty_content_noop_witness :
    List.lookup "r" c6wSt.hash_store = List.lookup "r" initState.hash_store ∧
    ("a", some "r") ∈ visitsOf c6wEvs := by
  have h := empty_content_noop wCfgEmptyRoot 1 "r" none initState
    c6wSt c6wEvs (by decide) (by decide) (by decide)
  exact ⟨h.1, h.2.2.2.2 ⟨"A", "a"⟩ (by decide)⟩

/-- Claim C7: an indexed node's trace starts with the delete-by-metadata
for its id, followed by the submission of every chunk — the same shape
whether or not the delete fails (its success flag merely records the
failure), so a failed delete still lets every chunk be submitted. -/
theorem delete_precedes_chunk_adds (cfg : Config) (fuel : Nat) (id : String)
    (p : Option String) (st st' : IndexerState) (evs : List Ev)
    (hrun : process_page cfg (fuel + 1) id p st = some (st', evs))
    (h1 : id ∉ st.processed_pages)
    (h2 : List.lookup id st.hash_store ≠ some (freshHash cfg id))
    (h3 : cfg.splitText (cfg.fetch id).full_content ≠ []) :
    ∃ tail, evs =
      Ev.visit id p ::
      Ev.decided id (decideOf (List.lookup id st.hash_store) (freshHash cfg id)) ::
      Ev.vsDelete id (!cfg.deleteFails id) ::
      (((cfg.splitText (cfg.fetch id).full_content).map fun c =>
        Ev.vsAdd id (freshTitle cfg id) c (!cfg.chunkFails id c)) ++ tail) := by
  obtain ⟨sc, hrc, hst, hevs⟩ := process_page_succ_inv hrun
  rw [nodeBody_index cfg id p st h1 h2 h3] at hevs
  dsimp only at hevs
  refine ⟨[Ev.hashUpdate id (freshHash cfg id), Ev.saveHash,
    Ev.saveProcessed] ++ sc.2, ?_⟩
  rw [hevs]
  simp

/-- Witness for C7 on `wCfgDelFail`: the delete for "a" fails (flag false)
and the chunk is still submitted right after it. -/
theorem delete_precedes_chunk_adds_witness :
    ∃ tail, c7wEvs =
      Ev.visit "a" none :: Ev.decided "a" Decision.unseen ::
      Ev.vsDelete "a" false ::
      ([Ev.vsAdd "a" "A" "alpha" true] ++ tail) :=
  delete_precedes_chunk_adds wCfgDelFail 0 "a" none initState c5wSt c7wEvs
    (by decide) (by decide) (by decide) (by decide)

/-- Counterexample to claim C1 as stated: page "p" sits in ProcessedSet
while its stored fingerprint "old" differs from the fresh one "new"; the
visit issues no embedding-store write at all and leaves the stale
fingerprint in place, so the skip/process decision is not independent of
ProcessedSet membership. -/
theorem processed_set_blocks_reembedding_cex :
    process_page staleCfg 1 "p" none staleState = some (c1cSt, c1cEvs) ∧
    List.lookup "p" staleState.hash_store = some "old" ∧
    freshHash staleCfg "p" = "new" ∧
    Ev.decided "p" Decision.modified ∈ c1cEvs ∧
    noWritesB c1cEvs = true ∧
    c1cSt.hash_store = [("p", "old")] := by decide

/-- Claim C1 amended: the decision consults ProcessedSet first — a page
already in ProcessedSet is never re-embedded, even when its stored
fingerprint differs from the fresh one; only for pages outside
ProcessedSet does the ContentHash comparison drive re-fingerprinting and
re-embedding. -/
theorem processed_set_gates_reembedding (cfg : Config) (id : String)
    (p : Option String) (st : IndexerState) :
    (id ∈ st.processed_pages →
      (nodeBody cfg id p st).1.hash_store = st.hash_store ∧
      noWritesB (nodeBody cfg id p st).2 = true) ∧
    (id ∉ st.processed_pages →
      List.lookup id st.hash_store ≠ some (freshHash cfg id) →
      cfg.splitText (cfg.fetch id).full_content ≠ [] →
      List.lookup id (nodeBody cfg id p st).1.hash_store =
        some (freshHash cfg id) ∧
      ∀ c ∈ cfg.splitText (cfg.fetch id).full_content,
        Ev.vsAdd id (freshTitle cfg id) c (!cfg.chunkFails id c) ∈
          (nodeBody cfg id p st).2) := by
  constructor
  · intro hp
    rw [nodeBody_quiet cfg id p st (Or.inl hp)]
    exact ⟨by simp, rfl⟩
  · intro h1 h2 h3
    rw [nodeBody_index cfg id p st h1 h2 h3]
    refine ⟨by simp [lookup_setKV_self], ?_⟩
    intro c hc
    simp only [List.mem_cons, List.mem_append, List.mem_map]
    exact Or.inr (Or.inr (Or.inr (Or.inl ⟨c, hc, rfl⟩)))

/-- Witness for the amended C1: the processed page "p" is skipped with its
stale hash kept; the unprocessed page "a" is embedded and fingerprinted. -/
theorem processed_set_gates_reembedding_witness :
    ((nodeBody staleCfg "p" none staleState).1.hash_store =
        staleState.hash_store ∧
      noWritesB (nodeBody staleCfg "p" none staleState).2 = true) ∧
    (List.lookup "a" (nodeBody wCfg "a" none initState).1.hash_store =
        some "alpha" ∧
      Ev.vsAdd "a" "A" "alpha" true ∈ (nodeBody wCfg "a" none initState).2) := by
  refine ⟨(processed_set_gates_reembedding staleCfg "p" none staleState).1
    (by decide), ?_⟩
  have h := (processed_set_gates_reembedding wCfg "a" none initState).2
    (by decide) (by decide) (by decide)
  exact ⟨h.1, h.2 "alpha" (by decide)⟩

/-- Counterexample to claim C2 as stated: the root of `dupCfg` declares
the child id "x" twice, and one run invokes process_page twice for "x". -/
theorem duplicate_child_double_visit_cex :
    process_page dupCfg 2 "r" none initState = some (c2cSt, c2cEvs) ∧
    visitCount c2cEvs "x" = 2 := by decide

/-- Claim C2 amended: the traversal recurses unconditionally into every
declared child reference — a child declared under two references is
processed once per reference (so more than once per run), and on a corpus
whose child references form a cycle the recursion never completes: no
recursion depth suffices. -/
theorem traversal_unguarded :
    (∀ (fuel : Nat) (p : Option String) (st : IndexerState),
      process_page cycCfg fuel "r" p st = none) ∧
    visitCount c2cEvs "x" = 2 := by
  constructor
  · intro fuel
    induction fuel with
    | zero => intro p st; rfl
    | succ fuel ih =>
      intro p st
      rw [process_page_succ]
      have hrc : runChildren (process_page cycCfg fuel) "r"
          (cycCfg.fetch "r").child_pages (nodeBody cycCfg "r" p st).1 = none := by
        show runChildren (process_page cycCfg fuel) "r"
          [⟨"Root", "r"⟩] (nodeBody cycCfg "r" p st).1 = none
        unfold runChildren
        rw [ih (some "r") (nodeBody cycCfg "r" p st).1]
      rw [hrc]
  · decide

/-- Counterexample to claim C3 as stated: with a 200 properties response
and a 404 blocks response (with a non-empty block payload), fetching
builds an empty DocumentNode instead of raising a fetch error. -/
theorem blocks_error_silently_empty_cex :
    get_page_content srcBlocks404 "p" =
      Except.ok { page_id := "p",
                  content := [("title", PropVal.vStrs ["T"])],
                  full_content := "", child_pages := [] } ∧
    srcBlocks404.blocksStatus "p" = 404 :=
  ⟨rfl, rfl⟩

/-- Claim C3 amended: a non-success properties response raises a fetch
error carrying the status code (the body is printed, not attached), but a
non-success blocks response is swallowed: the node is built successfully
with empty flattened content and no child refs. -/
theorem fetch_error_behavior (src : RemoteSource) (id : String) :
    (src.pageStatus id ≠ 200 →
      get_page_content src id = Except.error
        { status := src.pageStatus id,
          message := "Failed to retrieve page content. Status code: "
            ++ toString (src.pageStatus id) }) ∧
    (src.pageStatus id = 200 → src.blocksStatus id ≠ 200 →
      get_page_content src id = Except.ok
        { page_id := id, content := extractProps (src.pageProps id),
          full_content := "", child_pages := [] }) := by
  constructor
  · intro h
    simp [get_page_content, h]
  · intro h hb
    simp only [get_page_content, get_page_blocks, h, hb, if_true, if_false,
      ite_true, ite_false, if_neg, not_false_eq_true]
    rfl

/-- Witness for the amended C3 at concrete sources with statuses 403 and
404. -/
theorem fetch_error_behavior_witness :
    get_page_content srcPage403 "p" = Except.error
      { status := 403,
        message := "Failed to retrieve page content. Status code: 403" } ∧
    get_page_content srcBlocks404 "q" = Except.ok
      { page_id := "q", content := [("title", PropVal.vStrs ["T"])],
        full_content := "", child_pages := [] } :=
  ⟨(fetch_error_behavior srcPage403 "p").1 (by decide),
   (fetch_error_behavior srcBlocks404 "q").2 (by decide) (by decide)⟩

/-- Claim C10: a child_page block is rendered in the flattened text as a
markdown link whose target is the block's parent-page id — the containing
page's own id for a well-formed source — while the childRefs entry built
from the same block carries the block's own id, the one recursion uses;
when the two ids differ, the rendered target differs from the recursion
target. -/
theorem child_link_target_vs_recursion_id (src : RemoteSource) (id : String)
    (page : NotionPage) (t pid bid : String)
    (hok : get_page_content src id = Except.ok page)
    (hbs : src.blocksStatus id = 200)
    (hb : Block.child_page t pid bid ∈ src.blocksResults id) :
    blockLine (Block.child_page t pid bid) =
      "- [" ++ t ++ "](" ++ pid ++ ")" ∧
    ("- [" ++ t ++ "](" ++ pid ++ ")") ∈
      (src.blocksResults id).map blockLine ∧
    page.full_content = process_blocks (src.blocksResults id) ∧
    (⟨t, bid⟩ : NotionChildPage) ∈ page.child_pages ∧
    (pid ≠ bid →
      "- [" ++ t ++ "](" ++ pid ++ ")" ≠ "- [" ++ t ++ "](" ++ bid ++ ")") := by
  have hpage : page =
      { page_id := id, content := extractProps (src.pageProps id),
        full_content := process_blocks (src.blocksResults id),
        child_pages := get_child_pages (src.blocksResults id) } := by
    by_cases hps : src.pageStatus id = 200
    · rw [get_page_content, if_pos hps] at hok
      simp only [Except.ok.injEq] at hok
      rw [← hok]
      simp [get_page_blocks, hbs]
    · rw [get_page_content, if_neg hps] at hok
      cases hok
  refine ⟨rfl, ?_, ?_, ?_, ?_⟩
  · exact List.mem_map_of_mem blockLine hb
  · rw [hpage]
  · rw [hpage]
    show (⟨t, bid⟩ : NotionChildPage) ∈
      get_child_pages (src.blocksResults id)
    unfold get_child_pages
    exact List.mem_filterMap.2 ⟨Block.child_page t pid bid, hb, rfl⟩
  · intro hne heq
    apply hne
    have h2 := congrArg String.data heq
    simp only [String.data_append, List.append_cancel_left_eq,
      List.append_cancel_right_eq] at h2
    exact String.ext h2

/-- Witness for C10 at `srcChild`: the block under page "P1" renders as a
link to "P1" while the child reference (and hence the recursion) uses the
block id "b123". -/
theorem child_link_target_vs_recursion_id_witness :
    blockLine (Block.child_page "Kid" "P1" "b123") =
      "- [" ++ "Kid" ++ "](" ++ "P1" ++ ")" ∧
    ("- [" ++ "Kid" ++ "](" ++ "P1" ++ ")") ∈
      (srcChild.blocksResults "P1").map blockLine ∧
    (NotionPage.mk "P1" [("title", PropVal.vStrs ["P"])]
      "- [Kid](P1)" [⟨"Kid", "b123"⟩]).full_content =
        process_blocks (srcChild.blocksResults "P1") ∧
    (⟨"Kid", "b123"⟩ : NotionChildPage) ∈
      (NotionPage.mk "P1" [("title", PropVal.vStrs ["P"])]
        "- [Kid](P1)" [⟨"Kid", "b123"⟩]).child_pages ∧
    ("P1" ≠ "b123" →
      "- [" ++ "Kid" ++ "](" ++ "P1" ++ ")" ≠
      "- [" ++ "Kid" ++ "](" ++ "b123" ++ ")") :=
  child_link_target_vs_recursion_id srcChild "P1"
    (NotionPage.mk "P1" [("title", PropVal.vStrs ["P"])]
      "- [Kid](P1)" [⟨"Kid", "b123"⟩]) "Kid" "P1" "b123"
    (by rfl) (by rfl) (by decide)

/-- Claim C8: upserting a graph node and adding a parent→child edge are
idempotent (the repeated call is a no-op, not an error); a present edge is
never duplicated, so a nodup edge list stays nodup with the observed pair
occurring exactly once; and along any traversal from a good state the
graph keeps exactly one node per id and one edge per (parent, child) pair,
however often a pair is observed. -/
theorem graph_ops_idempotent_and_unique :
    (∀ (ns : List (String × String)) (id t : String),
      setKV (setKV ns id t) id t = setKV ns id t) ∧
    (∀ (es : List (String × String)) (p c : String),
      addEdge (addEdge es p c) p c = addEdge es p c) ∧
    (∀ (es : List (String × String)) (p c : String),
      (p, c) ∈ es → addEdge es p c = es) ∧
    (∀ (es : List (String × String)) (p c : String), es.Nodup →
      (addEdge es p c).Nodup ∧ (p, c) ∈ addEdge es p c ∧
      (addEdge es p c).countP (fun e => decide (e = (p, c))) = 1) ∧
    (∀ (cfg : Config) (fuel : Nat) (id : String) (p : Option String)
      (st : IndexerState) (s : IndexerState × List Ev),
      process_page cfg fuel id p st = some s → GoodState cfg st →
      (s.1.graph_nodes.map Prod.fst).Nodup ∧ s.1.graph_edges.Nodup) := by
  refine ⟨setKV_idem, addEdge_idem, addEdge_of_mem, ?_, ?_⟩
  · intro es p c hd
    have hnd := addEdge_nodup es p c hd
    have hm := addEdge_mem_self es p c
    exact ⟨hnd, hm, countP_eq_one_of_nodup_mem _ _ hnd hm⟩
  · intro cfg fuel id p st s h hg
    have hpost := pp_post cfg fuel id p st s h hg
    exact ⟨hpost.1.2.1.2, hpost.1.2.2⟩

/-- Witness for C8: idempotence at concrete lists, and uniqueness after
the duplicate-child run of `dupCfg`, where the pair ("r","x") is observed
twice but recorded once. -/
theorem graph_ops_idempotent_and_unique_witness :
    setKV (setKV [("r", "Root")] "x" "T") "x" "T" =
      setKV [("r", "Root")] "x" "T" ∧
    addEdge (addEdge [] "r" "x") "r" "x" = addEdge [] "r" "x" ∧
    (addEdge [("r", "a")] "r" "x").Nodup ∧
    ("r", "x") ∈ addEdge [("r", "a")] "r" "x" ∧
    (addEdge [("r", "a")] "r" "x").countP
      (fun e => decide (e = ("r", "x"))) = 1 ∧
    (c2cSt.graph_nodes.map Prod.fst).Nodup ∧ c2cSt.graph_edges.Nodup := by
  have h4 := graph_ops_idempotent_and_unique.2.2.2.1 [("r", "a")] "r" "x"
    (by decide)
  have h5 := graph_ops_idempotent_and_unique.2.2.2.2 dupCfg 2 "r" none
    initState (c2cSt, c2cEvs) (by decide) (goodState_init dupCfg)
  exact ⟨graph_ops_idempotent_and_unique.1 [("r", "Root")] "x" "T",
    graph_ops_idempotent_and_unique.2.1 [] "r" "x",
    h4.1, h4.2.1, h4.2.2, h5.1, h5.2⟩

/-- Counterexample to claim C9 as stated: on a corpus whose only page has
empty content, the second run issues zero writes and leaves the stores
unchanged, but the page is decided Unseen (not Unchanged) in that second
run, because no-op pages never receive a ContentHash entry. -/
theorem second_run_not_all_unchanged_cex :
    run emptyCfg 2 initState = some (c9cSt, c9cEvs) ∧
    run emptyCfg 2 c9cSt = some (c9cSt, c9cEvs) ∧
    Ev.decided "r" Decision.unseen ∈ c9cEvs ∧
    Decision.unseen ≠ Decision.unchanged ∧
    noWritesB c9cEvs = true := by decide

/-- Claim C9 amended: re-running over an unchanged corpus after a
completed first run from empty stores leaves the ContentHash map, the
ProcessedSet and the CorpusGraph identical and issues zero embedding-store
writes; every node that has a ContentHash entry is decided Unchanged
(empty-content nodes remain Unseen no-ops). -/
theorem second_run_idempotent (cfg : Config) (fuel : Nat)
    (st1 : IndexerState) (evs1 : List Ev)
    (hrun1 : run cfg fuel initState = some (st1, evs1)) :
    ∃ st2 evs2, run cfg fuel st1 = some (st2, evs2) ∧
      st2.hash_store = st1.hash_store ∧
      st2.processed_pages = st1.processed_pages ∧
      st2.graph_nodes = st1.graph_nodes ∧
      st2.graph_edges = st1.graph_edges ∧
      (∀ e ∈ evs2, isWrite e = false) ∧
      (∀ k d, Ev.decided k d ∈ evs2 →
        (List.lookup k st1.hash_store).isSome → d = Decision.unchanged) := by
  obtain ⟨sA, hppA, hst1, hevs1⟩ := run_inv hrun1
  have hg0 : GoodState cfg
      { initState with total_pages_found := 1, pages_processed := 0 } :=
    goodState_storesEq ⟨rfl, rfl, rfl, rfl⟩ (goodState_init cfg)
  obtain ⟨hgA, hmA, hvA⟩ := pp_post cfg fuel cfg.root_page_id none _ sA hppA hg0
  obtain ⟨sB, hppB, hvisB⟩ := pp_det cfg fuel cfg.root_page_id none _ sA hppA
    { st1 with total_pages_found := 1, pages_processed := 0 }
  have heq1 : storesEq sA.1
      { st1 with total_pages_found := 1, pages_processed := 0 } := by
    rw [hst1]
    exact ⟨rfl, rfl, rfl, rfl⟩
  have hgB : GoodState cfg
      { st1 with total_pages_found := 1, pages_processed := 0 } :=
    goodState_storesEq heq1 hgA
  have hstabB : ∀ pr ∈ visitsOf sB.2,
      StableAt cfg { st1 with total_pages_found := 1, pages_processed := 0 } pr := by
    intro pr hpr
    rw [hvisB] at hpr
    exact stableAt_storesEq heq1 (hvA pr hpr)
  obtain ⟨heB, hwB, hdB⟩ := pp_noop cfg fuel cfg.root_page_id none _ sB hppB
    hgB hstabB
  refine ⟨sB.1, sB.2 ++ [Ev.saveGraph], run_eq hppB, ?_, ?_, ?_, ?_, ?_, ?_⟩
  · exact heB.1
  · exact heB.2.1
  · exact heB.2.2.1
  · exact heB.2.2.2
  · intro e he
    rcases List.mem_append.1 he with he | he
    · exact hwB e he
    · simp only [List.mem_singleton] at he
      subst he
      rfl
  · intro k d hd hk
    rcases List.mem_append.1 hd with hd | hd
    · exact hdB k d hd (by simpa using hk)
    · simp at hd

/-- Witness for the amended C9 on `wCfg`: after the two-page first run,
the second run exists, keeps the stores, and writes nothing. -/
theorem second_run_idempotent_witness :
    ∃ st2 evs2, run wCfg 3 c9wSt = some (st2, evs2) ∧
      st2.hash_store = c9wSt.hash_store ∧
      st2.processed_pages = c9wSt.processed_pages ∧
      st2.graph_nodes = c9wSt.graph_nodes ∧
      st2.graph_edges = c9wSt.graph_edges ∧
      (∀ e ∈ evs2, isWrite e = false) ∧
      (∀ k d, Ev.decided k d ∈ evs2 →
        (List.lookup k c9wSt.hash_store).isSome → d = Decision.unchanged) :=
  second_run_idempotent wCfg 3 c9wSt c9wEvs (by decide)

end NotionAssistant
